import Mathlib

set_option maxRecDepth 8000

/-
Verification of the go-lisp-interpreter execution core against its
natural-language specification.

This file shallowly embeds the parts of the interpreter that the checked
claims are about:

* the instruction encoder/decoder of the code package (ast/ast.go,
  second and third documents: Opcode, Definition, Make, ReadOperands);
* the object model (object/object.go and the builtins file), including a
  model of Go float64 arithmetic as rounded rational arithmetic;
* the symbol table (compiler/symbol_table.go, both source variants);
* the bytecode compiler (compiler/compiler.go, second document);
* the stack virtual machine (vm/vm.go, second document, and vm/frame.go).

Machine integers are embedded as Nat/Int with explicit `% 2 ^ w` where
overflow matters.  Fallible Go code (panics, nil dereferences, index
out of range) is embedded with Option/Except, and Go functions that
mutate through pointers are embedded by explicit state passing.
Recursive functions whose Go originals recurse on pointers or on an AST
are given a fuel parameter so that every definition is executable.
-/

/-! ### Instruction encoding (packages `code`, from ast/ast.go)

Opcodes are one byte; the iota order of the Go source fixes the byte
values.  Each opcode has a Definition giving its name and the widths in
bytes of its operands. -/

/-- The opcode enumeration, in the declaration (iota) order of the source. -/
inductive Opcode where
  | opConstant
  | opPop
  | opTrue
  | opFalse
  | opJumpWhenFalse
  | opJump
  | opNull
  | opGetGlobal
  | opSetGlobal
  | opCall
  | opReturn
  | opGetLocal
  | opSetLocal
  | opEmptyList
  | opGetBuiltin
  | opClosure
  | opGetFree
  | opCurrentClosure
deriving DecidableEq, Repr

/-- The byte value of an opcode (`iota` numbering in the source). -/
def Opcode.byte : Opcode → Nat
  | .opConstant => 0
  | .opPop => 1
  | .opTrue => 2
  | .opFalse => 3
  | .opJumpWhenFalse => 4
  | .opJump => 5
  | .opNull => 6
  | .opGetGlobal => 7
  | .opSetGlobal => 8
  | .opCall => 9
  | .opReturn => 10
  | .opGetLocal => 11
  | .opSetLocal => 12
  | .opEmptyList => 13
  | .opGetBuiltin => 14
  | .opClosure => 15
  | .opGetFree => 16
  | .opCurrentClosure => 17

/-- Definition of an Opcode: its name and the byte widths of its operands. -/
structure OpDefinition where
  name : String
  operandWidths : List Nat
deriving DecidableEq, Repr

/-- The `definitions` map of the source.  Every opcode of the enumeration has
an entry, so the lookup is embedded as a total function returning `some`;
`Opcode.lookup` below recovers the fallible byte-indexed lookup. -/
def definitionsMap : Opcode → Option OpDefinition
  | .opConstant => some ⟨"OpConstant", [2]⟩
  | .opPop => some ⟨"OpPop", []⟩
  | .opTrue => some ⟨"OpTrue", []⟩
  | .opFalse => some ⟨"OpFalse", []⟩
  | .opJumpWhenFalse => some ⟨"OpJumpWhenFalse", [2]⟩
  | .opJump => some ⟨"OpJump", [2]⟩
  | .opNull => some ⟨"OpNull", []⟩
  | .opGetGlobal => some ⟨"OpGetGlobal", [2]⟩
  | .opSetGlobal => some ⟨"OpSetGlobal", [2]⟩
  | .opCall => some ⟨"OpCall", [1]⟩
  | .opReturn => some ⟨"OpReturn", []⟩
  | .opGetLocal => some ⟨"OpGetLocal", [1]⟩
  | .opSetLocal => some ⟨"OpSetLocal", [1]⟩
  | .opEmptyList => some ⟨"OpEmptyList", []⟩
  | .opGetBuiltin => some ⟨"OpGetBuiltin", [1]⟩
  | .opClosure => some ⟨"OpClosure", [2, 1]⟩
  | .opGetFree => some ⟨"OpGetFree", [1]⟩
  | .opCurrentClosure => some ⟨"OpCurrentClosure", []⟩

/-- Encode one operand at its declared width.
Width 2 is big-endian uint16 (`binary.BigEndian.PutUint16` after the Go
conversion `uint16(o)`), width 1 is a single byte (`byte(o)`); any other
width writes nothing, leaving the zero bytes the Go `make` allocated. -/
def encodeOperand (width o : Nat) : List Nat :=
  if width = 2 then [o % 65536 / 256, o % 256]
  else if width = 1 then [o % 256]
  else List.replicate width 0

/-- Sum of the operand widths: the operand-bytes length of an instruction. -/
def sumWidths (widths : List Nat) : Nat := widths.foldl (· + ·) 0

/-- Encode the operand list against the declared widths.  The Go loop ranges
over the operands, indexing the width list in step; slots whose operand is
missing keep the zero bytes of the allocated instruction. -/
def encodeOperands : List Nat → List Nat → List Nat
  | [], _ => []
  | w :: ws, [] => List.replicate (w + sumWidths ws) 0
  | w :: ws, o :: os => encodeOperand w o ++ encodeOperands ws os

/-- `Make` builds an instruction: the opcode byte followed by the encoded
operands.  An opcode without a Definition yields the empty slice (that
branch is unreachable here because `definitionsMap` is total). -/
def Make (op : Opcode) (operands : List Nat) : List Nat :=
  match definitionsMap op with
  | none => []
  | some d => op.byte :: encodeOperands d.operandWidths operands

/-- `ReadUint16`: big-endian decode of two bytes.  Reading past the end of
the slice would panic in Go; the claims only use it in bounds, where the
default 0 is never consulted. -/
def readUint16 (ins : List Nat) : Nat :=
  256 * ins.headD 0 + (ins.drop 1).headD 0

/-- Decode the operands of an instruction according to the declared widths,
mirroring the offset-advancing loop of `ReadOperands`. -/
def readOperandsList : List Nat → List Nat → List Nat
  | [], _ => []
  | w :: ws, ins =>
    (if w = 2 then readUint16 ins
     else if w = 1 then ins.headD 0
     else 0) :: readOperandsList ws (ins.drop w)

/-- `ReadOperands` returns the decoded operands together with the number of
bytes they occupied (the final offset). -/
def ReadOperands (d : OpDefinition) (ins : List Nat) : List Nat × Nat :=
  (readOperandsList d.operandWidths ins, sumWidths d.operandWidths)

/-- The operands fit the declared widths: one operand per width, each value
strictly below `2 ^ (8 * width)`. -/
def OperandsFit : List Nat → List Nat → Prop
  | [], [] => True
  | w :: ws, o :: os => o < 2 ^ (8 * w) ∧ OperandsFit ws os
  | _, _ => False

instance instDecOperandsFit : ∀ ws os, Decidable (OperandsFit ws os)
  | [], [] => .isTrue trivial
  | [], _ :: _ => .isFalse (fun h => h)
  | _ :: _, [] => .isFalse (fun h => h)
  | _ :: ws, _ :: os =>
    have : Decidable (OperandsFit ws os) := instDecOperandsFit ws os
    inferInstanceAs (Decidable (_ ∧ _))

lemma sumWidths_cons (w : Nat) (ws : List Nat) :
    sumWidths (w :: ws) = w + sumWidths ws := by
  show (w :: ws).foldl (· + ·) 0 = w + ws.foldl (· + ·) 0
  rw [List.foldl_cons]
  have h : ∀ (l : List Nat) (a b : Nat), l.foldl (· + ·) (a + b) = a + l.foldl (· + ·) b := by
    intro l
    induction l with
    | nil => intro a b; rfl
    | cons x xs ih =>
      intro a b
      simp only [List.foldl_cons]
      rw [Nat.add_assoc, ih]
  have := h ws w 0
  simpa using this

lemma encodeOperand_length {w : Nat} (hw : w = 1 ∨ w = 2) (o : Nat) :
    (encodeOperand w o).length = w := by
  rcases hw with h | h <;> subst h <;> simp [encodeOperand]

/-- General round trip: decoding the encoding of fitting operands recovers
them, for width lists drawn from {1, 2} (as all declared widths are). -/
lemma readOperandsList_encodeOperands :
    ∀ ws os, (∀ w ∈ ws, w = 1 ∨ w = 2) → OperandsFit ws os →
      readOperandsList ws (encodeOperands ws os) = os
  | [], [], _, _ => rfl
  | [], _ :: _, _, h => absurd h (fun h => h)
  | _ :: _, [], _, h => absurd h (fun h => h)
  | w :: ws, o :: os, hw, h => by
    obtain ⟨ho, hrest⟩ := h
    have hw1 : w = 1 ∨ w = 2 := hw w (List.mem_cons_self w ws)
    have ih := readOperandsList_encodeOperands ws os
      (fun x hx => hw x (List.mem_cons_of_mem w hx)) hrest
    have hdrop : (encodeOperand w o ++ encodeOperands ws os).drop w
        = encodeOperands ws os := by
      have h := List.drop_left (encodeOperand w o) (encodeOperands ws os)
      rwa [encodeOperand_length hw1] at h
    rcases hw1 with h1 | h1 <;> subst h1
    · have ho' : o < 256 := by simpa using ho
      simp only [encodeOperands, readOperandsList, hdrop, ih]
      simp [encodeOperand, readUint16, Nat.mod_eq_of_lt ho']
    · have ho' : o < 65536 := by
        have : (2 : Nat) ^ (8 * 2) = 65536 := by norm_num
        omega
      simp only [encodeOperands, readOperandsList, hdrop, ih]
      simp only [encodeOperand, readUint16]
      norm_num
      omega

lemma widths_mem_one_two : ∀ (op : Opcode) (d : OpDefinition),
    definitionsMap op = some d → ∀ w ∈ d.operandWidths, w = 1 ∨ w = 2 := by
  intro op d hd
  cases op <;> (simp only [definitionsMap, Option.some.injEq] at hd; subst hd; decide)

/-- Claim C5: for every opcode with a Definition and operands fitting the
declared widths, `ReadOperands (def op) ((Make op operands).drop 1)` returns
exactly the original operands and a byte count equal to the sum of the
declared widths. -/
theorem claim_C5_make_readOperands_roundtrip (op : Opcode) (d : OpDefinition)
    (operands : List Nat) (hd : definitionsMap op = some d)
    (hfit : OperandsFit d.operandWidths operands) :
    ReadOperands d ((Make op operands).drop 1)
      = (operands, sumWidths d.operandWidths) := by
  unfold Make
  rw [hd]
  simp only [List.drop_succ_cons, List.drop_zero, ReadOperands]
  rw [readOperandsList_encodeOperands d.operandWidths operands
    (widths_mem_one_two op d hd) hfit]

/-- Witness for C5 at a concrete instruction: OpClosure with operands
65534 (u16) and 7 (u8). -/
theorem claim_C5_witness :
    definitionsMap Opcode.opClosure = some ⟨"OpClosure", [2, 1]⟩
      ∧ ReadOperands ⟨"OpClosure", [2, 1]⟩
          ((Make Opcode.opClosure [65534, 7]).drop 1) = ([65534, 7], 3) :=
  ⟨rfl, claim_C5_make_readOperands_roundtrip Opcode.opClosure _ [65534, 7] rfl
    (by decide)⟩

/-! ### A model of Go float64 arithmetic

The builtins do all arithmetic in Go float64 (IEEE-754 binary64,
round-to-nearest, ties-to-even).  The model represents a finite float by
an unnormalised fraction (so that every operation is kernel-computable:
no gcd) and rounds the exact rational result of each operation to the
binary64 grid.  Signed zero is collapsed to a single zero, which is
observationally equivalent for every operation the interpreter's
builtins perform on values they can produce from the language. -/

/-- An unnormalised fraction `num / den`.  Every fraction the model
constructs has a positive denominator (`Frac.Pos`). -/
structure Frac where
  num : Int
  den : Nat
deriving DecidableEq, Repr

/-- The rational value of a fraction (specification-level only; all
computation stays on `Frac`). -/
def Frac.val (q : Frac) : ℚ := (q.num : ℚ) / (q.den : ℚ)

/-- The denominator invariant. -/
def Frac.Pos (q : Frac) : Prop := 0 < q.den

/-- Exact sum. -/
def fracAdd (a b : Frac) : Frac :=
  ⟨a.num * (b.den : Int) + b.num * (a.den : Int), a.den * b.den⟩

/-- Exact product. -/
def fracMul (a b : Frac) : Frac := ⟨a.num * b.num, a.den * b.den⟩

/-- Exact quotient; callers guarantee `b.num ≠ 0`.  The sign is moved to
the numerator so the denominator stays positive. -/
def fracDivF (a b : Frac) : Frac :=
  if 0 ≤ b.num then ⟨a.num * (b.den : Int), a.den * b.num.toNat⟩
  else ⟨-(a.num * (b.den : Int)), a.den * (-b.num).toNat⟩

/-- Strict comparison by cross multiplication (valid for positive
denominators). -/
def fracLt (a b : Frac) : Bool := a.num * (b.den : Int) < b.num * (a.den : Int)

/-- Equality by cross multiplication (Go `==` on finite floats). -/
def fracEqB (a b : Frac) : Bool := a.num * (b.den : Int) == b.num * (a.den : Int)

/-- Absolute value. -/
def fracAbs (q : Frac) : Frac := ⟨|q.num|, q.den⟩

/-- Exponentiation by squaring with fuel; `fuel` bounding the bit length
of the exponent keeps the recursion structural (and hence
kernel-computable) while `powNatF (e + 1) b e` is exact for every `e`. -/
def powNatF : Nat → Nat → Nat → Nat
  | 0, _, _ => 1
  | fuel + 1, b, e =>
    if e = 0 then 1
    else
      let h := powNatF fuel b (e / 2)
      if e % 2 = 0 then h * h else h * h * b

/-- `2 ^ n` through `powNatF` (kernel-computable for large `n`). -/
def pow2N (n : Nat) : Nat := powNatF (n + 1) 2 n

/-- The power of two `2 ^ k` as a fraction. -/
def pow2 (k : Int) : Frac :=
  if 0 ≤ k then ⟨(pow2N k.toNat : Int), 1⟩ else ⟨1, pow2N (-k).toNat⟩

/-- Round a fraction to the nearest integer, ties to the even integer. -/
def roundHalfEvenF (q : Frac) : Int :=
  let f := q.num.fdiv (q.den : Int)
  let r := q.num - f * (q.den : Int)
  if 2 * r < (q.den : Int) then f
  else if (q.den : Int) < 2 * r then f + 1
  else if f % 2 = 0 then f else f + 1

/-- Fueled base-2 logarithm (`fuel ≥ n` makes it exact); structural
recursion on the fuel keeps it kernel-computable. -/
def natLog2F : Nat → Nat → Nat
  | 0, _ => 0
  | fuel + 1, n => if n ≤ 1 then 0 else 1 + natLog2F fuel (n / 2)

/-- Base-2 logarithm: the greatest `e` with `2 ^ e ≤ n`, for `n > 0`. -/
def natLog2 (n : Nat) : Nat := natLog2F n n

/-- The binary exponent of a positive fraction: the `e` with
`2 ^ e ≤ q < 2 ^ (e + 1)`.  The first guess from the component
logarithms is at most one too high and is corrected by one comparison. -/
def fracExp (q : Frac) : Int :=
  let c : Int := (natLog2 q.num.toNat : Int) - (natLog2 q.den : Int)
  if fracLt q (pow2 c) then c - 1 else c

/-- Reassemble a rounded significand `m` at scale `2 ^ k` as a fraction. -/
def fracOfScaled (m : Int) (k : Int) : Frac :=
  if 0 ≤ k then ⟨m * (pow2N k.toNat : Int), 1⟩ else ⟨m, pow2N (-k).toNat⟩

/-- A Go float64: finite value, infinities, or NaN. -/
inductive GoFloat where
  | finite (q : Frac)
  | inf
  | neginf
  | nan
deriving DecidableEq, Repr

/-- The exponent of the binary64 grid on which a value is rounded: its
binade exponent minus 52, floored at the subnormal spacing. -/
def gridExp (q : Frac) : Int := max (fracExp (fracAbs q) - 52) (-1074)

/-- The finite candidate of binary64 rounding: round half-to-even on the
grid of spacing `2 ^ gridExp`. -/
def roundQfin (q : Frac) : Frac :=
  fracOfScaled (roundHalfEvenF (fracMul q (pow2 (-gridExp q)))) (gridExp q)

/-- Round an exact rational to binary64 (round to nearest, ties to even),
overflowing to infinity at `2 ^ 1024` (the IEEE round-to-nearest
overflow behaviour). -/
def roundQ (q : Frac) : GoFloat :=
  if q.num = 0 then .finite ⟨0, 1⟩
  else if fracLt (fracAbs (roundQfin q)) (pow2 1024) then .finite (roundQfin q)
  else if 0 < q.num then .inf else .neginf

/-- float64 addition: round the exact sum. -/
def fadd : GoFloat → GoFloat → GoFloat
  | .nan, _ => .nan
  | _, .nan => .nan
  | .inf, .neginf => .nan
  | .neginf, .inf => .nan
  | .inf, _ => .inf
  | _, .inf => .inf
  | .neginf, _ => .neginf
  | _, .neginf => .neginf
  | .finite a, .finite b => roundQ (fracAdd a b)

/-- float64 division: round the exact quotient; division of a nonzero
finite by zero gives a signed infinity, 0/0 gives NaN. -/
def fdiv : GoFloat → GoFloat → GoFloat
  | .nan, _ => .nan
  | _, .nan => .nan
  | .inf, .inf => .nan
  | .inf, .neginf => .nan
  | .neginf, .inf => .nan
  | .neginf, .neginf => .nan
  | .inf, .finite b => if 0 ≤ b.num then .inf else .neginf
  | .neginf, .finite b => if 0 ≤ b.num then .neginf else .inf
  | .finite _, .inf => .finite ⟨0, 1⟩
  | .finite _, .neginf => .finite ⟨0, 1⟩
  | .finite a, .finite b =>
    if b.num = 0 then
      if a.num = 0 then .nan
      else if 0 < a.num then .inf else .neginf
    else roundQ (fracDivF a b)

/-- Go `==` on float64: NaN compares unequal to everything. -/
def feqF : GoFloat → GoFloat → Bool
  | .nan, _ => false
  | _, .nan => false
  | .inf, .inf => true
  | .neginf, .neginf => true
  | .finite a, .finite b => fracEqB a b
  | _, _ => false

/-- The Go conversion `float64(v)` of an int64 value. -/
def i64ToF (v : Int) : GoFloat := roundQ ⟨v, 1⟩

/-- Truncation toward zero of a fraction. -/
def fracTruncInt (q : Frac) : Int := q.num.tdiv (q.den : Int)

/-- The Go conversion `int64(f)` of a float64: truncation toward zero
when the result is representable; for out-of-range, infinite or NaN
inputs the Go result is implementation-specific, and the model uses the
amd64 behaviour (minimum int64).  The claims only exercise the defined
range. -/
def f64ToInt64 : GoFloat → Int
  | .finite q =>
    let t := fracTruncInt q
    if t < -9223372036854775808 ∨ 9223372036854775808 ≤ t
    then -9223372036854775808 else t
  | _ => -9223372036854775808

/-- `isInt` from the builtins file: `num == float64(int64(num))`. -/
def isIntGo (num : GoFloat) : Bool := feqF num (i64ToF (f64ToInt64 num))

/-! #### Semantic lemmas for the float model

`Frac.val` interprets fractions in ℚ; the lemmas below relate the
kernel-computable operations to their rational meaning (under the
positive-denominator invariant) and establish that rounding is exact on
integers of magnitude below `2 ^ 53`. -/

lemma powNatF_eq : ∀ (fuel b e : Nat), e < 2 ^ fuel → powNatF fuel b e = b ^ e := by
  intro fuel
  induction fuel with
  | zero =>
    intro b e he
    interval_cases e
    rfl
  | succ fuel ih =>
    intro b e he
    by_cases h0 : e = 0
    · subst h0; rfl
    · have hhalf : e / 2 < 2 ^ fuel := by
        have : 2 ^ (fuel + 1) = 2 * 2 ^ fuel := by ring
        omega
      have hrec := ih b (e / 2) hhalf
      simp only [powNatF, h0, if_false]
      rcases Nat.even_or_odd e with he2 | he2
      · have hmod : e % 2 = 0 := Nat.even_iff.mp he2
        simp only [hmod, if_true, hrec]
        rw [← pow_add]
        congr 1
        omega
      · have hmod : e % 2 = 1 := Nat.odd_iff.mp he2
        simp only [hmod]
        norm_num
        rw [hrec, ← pow_add, ← pow_succ]
        congr 1
        omega

lemma pow2N_eq (n : Nat) : pow2N n = 2 ^ n :=
  powNatF_eq (n + 1) 2 n (by
    calc n < 2 ^ n := Nat.lt_two_pow n
    _ ≤ 2 ^ (n + 1) := Nat.pow_le_pow_right (by norm_num) (Nat.le_succ n))

lemma pow2N_pos (n : Nat) : 0 < pow2N n := by
  rw [pow2N_eq]; positivity

lemma Frac.den_cast_pos {q : Frac} (h : q.Pos) : (0 : ℚ) < (q.den : ℚ) := by
  exact_mod_cast h

lemma pow2_pos (k : Int) : (pow2 k).Pos := by
  unfold pow2 Frac.Pos
  split
  · norm_num
  · exact pow2N_pos _

lemma pow2_num_pos (k : Int) : 0 < (pow2 k).num := by
  unfold pow2
  split
  · simpa using pow2N_pos k.toNat
  · norm_num

lemma pow2_val (k : Int) : (pow2 k).val = (2 : ℚ) ^ k := by
  unfold pow2 Frac.val
  split
  · next h =>
    simp only [pow2N_eq]
    push_cast
    rw [div_one, ← zpow_natCast, Int.toNat_of_nonneg h]
  · next h =>
    push_neg at h
    simp only [pow2N_eq]
    push_cast
    rw [one_div, ← zpow_natCast, Int.toNat_of_nonneg (by omega : (0 : ℤ) ≤ -k),
      ← zpow_neg, neg_neg]

lemma fracLt_iff {a b : Frac} (ha : a.Pos) (hb : b.Pos) :
    fracLt a b = true ↔ a.val < b.val := by
  unfold fracLt Frac.val
  rw [div_lt_div_iff₀ (Frac.den_cast_pos ha) (Frac.den_cast_pos hb)]
  rw [decide_eq_true_eq]
  constructor
  · intro h; exact_mod_cast h
  · intro h; exact_mod_cast h

lemma fracEqB_iff {a b : Frac} (ha : a.Pos) (hb : b.Pos) :
    fracEqB a b = true ↔ a.val = b.val := by
  unfold fracEqB Frac.val
  rw [div_eq_div_iff (ne_of_gt (Frac.den_cast_pos ha)) (ne_of_gt (Frac.den_cast_pos hb))]
  rw [beq_iff_eq]
  constructor
  · intro h; exact_mod_cast h
  · intro h; exact_mod_cast h

lemma fracAbs_pos {q : Frac} (h : q.Pos) : (fracAbs q).Pos := h

lemma fracAbs_val {q : Frac} (h : q.Pos) : (fracAbs q).val = |q.val| := by
  unfold fracAbs Frac.val
  rw [abs_div, abs_of_pos (Frac.den_cast_pos h)]
  push_cast
  rfl

lemma fracAdd_pos {a b : Frac} (ha : a.Pos) (hb : b.Pos) : (fracAdd a b).Pos :=
  Nat.mul_pos ha hb

lemma fracAdd_val {a b : Frac} (ha : a.Pos) (hb : b.Pos) :
    (fracAdd a b).val = a.val + b.val := by
  unfold fracAdd Frac.val
  have ha' := ne_of_gt (Frac.den_cast_pos ha)
  have hb' := ne_of_gt (Frac.den_cast_pos hb)
  push_cast
  rw [div_add_div _ _ ha' hb']
  ring_nf

lemma fracMul_pos {a b : Frac} (ha : a.Pos) (hb : b.Pos) : (fracMul a b).Pos :=
  Nat.mul_pos ha hb

lemma fracMul_val (a b : Frac) : (fracMul a b).val = a.val * b.val := by
  unfold fracMul Frac.val
  push_cast
  rw [div_mul_div_comm]

/-- If a positive-denominator fraction has integer value `z`, its numerator
is `z` times its denominator. -/
lemma Frac.num_eq_of_val_int {q : Frac} (h : q.Pos) {z : Int} (hz : q.val = (z : ℚ)) :
    q.num = z * (q.den : Int) := by
  unfold Frac.val at hz
  rw [div_eq_iff (ne_of_gt (Frac.den_cast_pos h))] at hz
  exact_mod_cast hz

lemma roundHalfEvenF_intValued {q : Frac} (h : q.Pos) {z : Int}
    (hz : q.num = z * (q.den : Int)) : roundHalfEvenF q = z := by
  have hdpos : (0 : Int) < (q.den : Int) := by exact_mod_cast h
  have hden : (q.den : Int) ≠ 0 := ne_of_gt hdpos
  unfold roundHalfEvenF
  simp only
  rw [hz, Int.mul_fdiv_cancel z hden]
  have hr : z * (q.den : Int) - z * (q.den : Int) = 0 := by ring
  rw [hr, mul_zero, if_pos hdpos]

lemma fracOfScaled_pos (m k : Int) : (fracOfScaled m k).Pos := by
  unfold fracOfScaled Frac.Pos
  split
  · norm_num
  · exact pow2N_pos _

lemma fracOfScaled_val_of_nonpos (m : Int) {k : Int} (hk : k ≤ 0) :
    (fracOfScaled m k).val = (m : ℚ) / (2 : ℚ) ^ (-k).toNat := by
  unfold fracOfScaled Frac.val
  by_cases h0 : 0 ≤ k
  · have hk0 : k = 0 := le_antisymm hk h0
    subst hk0
    rw [if_pos (le_refl 0)]
    simp [pow2N_eq]
  · rw [if_neg h0]
    simp [pow2N_eq]

lemma natLog2F_bounds :
    ∀ (fuel n : Nat), 0 < n → n ≤ fuel →
      2 ^ natLog2F fuel n ≤ n ∧ n < 2 ^ (natLog2F fuel n + 1) := by
  intro fuel
  induction fuel with
  | zero => intro n h1 h2; omega
  | succ fuel ih =>
    intro n h1 h2
    by_cases hle : n ≤ 1
    · have : n = 1 := by omega
      subst this
      simp [natLog2F]
    · have h2' : n / 2 ≤ fuel := by omega
      have h1' : 0 < n / 2 := by omega
      obtain ⟨lo, hi⟩ := ih (n / 2) h1' h2'
      simp only [natLog2F]
      rw [if_neg hle]
      set L := natLog2F fuel (n / 2) with hL
      have e1 : (2 : ℕ) ^ (1 + L) = 2 * 2 ^ L := by rw [pow_add, pow_one]
      have e2 : (2 : ℕ) ^ (1 + L + 1) = 2 * 2 ^ (L + 1) := by
        rw [show 1 + L + 1 = 1 + (L + 1) from by omega, pow_add, pow_one]
      constructor
      · rw [e1]; omega
      · rw [e2]; omega

lemma natLog2_bounds (n : Nat) (h : 0 < n) :
    2 ^ natLog2 n ≤ n ∧ n < 2 ^ (natLog2 n + 1) :=
  natLog2F_bounds n n h (le_refl n)

lemma two_zpow_lt_two_zpow {a b : Int} (h : (2 : ℚ) ^ a < (2 : ℚ) ^ b) : a < b := by
  by_contra hc
  push_neg at hc
  have : (2 : ℚ) ^ b ≤ (2 : ℚ) ^ a := zpow_le_zpow_right₀ (by norm_num) hc
  linarith

lemma two_zpow_mono {a b : Int} (h : a ≤ b) : (2 : ℚ) ^ a ≤ (2 : ℚ) ^ b :=
  zpow_le_zpow_right₀ (by norm_num) h

/-- The computed binary exponent is strictly below any exponent whose
power of two exceeds the fraction. -/
lemma fracExp_lt {q : Frac} (hq : q.Pos) (hnum : 0 < q.num) {m : Int}
    (h : q.val < (2 : ℚ) ^ m) : fracExp q < m := by
  have hdenQ := Frac.den_cast_pos hq
  have hnum0 : 0 < q.num.toNat := by omega
  obtain ⟨la_lo, _⟩ := natLog2_bounds q.num.toNat hnum0
  obtain ⟨_, lb_hi⟩ := natLog2_bounds q.den hq
  set la : Nat := natLog2 q.num.toNat with hla
  set lb : Nat := natLog2 q.den with hlb
  have hnumQ : ((q.num.toNat : ℚ)) = (q.num : ℚ) := by
    have h := Int.toNat_of_nonneg (le_of_lt hnum)
    exact_mod_cast h
  -- lower bound: 2 ^ (la - lb - 1) < q.val
  have hlow : (2 : ℚ) ^ ((la : Int) - (lb : Int) - 1) < q.val := by
    have h1 : ((2 : ℚ) ^ la) ≤ (q.num : ℚ) := by
      rw [← hnumQ]; exact_mod_cast la_lo
    have h2 : ((q.den : ℚ)) < 2 ^ (lb + 1) := by exact_mod_cast lb_hi
    have key : (2 : ℚ) ^ la / 2 ^ (lb + 1) < (q.num : ℚ) / (q.den : ℚ) := by
      have step1 : (2 : ℚ) ^ la / 2 ^ (lb + 1) < (2 : ℚ) ^ la / (q.den : ℚ) :=
        div_lt_div_of_pos_left (by positivity) hdenQ h2
      have step2 : (2 : ℚ) ^ la / (q.den : ℚ) ≤ (q.num : ℚ) / (q.den : ℚ) := by
        gcongr
      exact lt_of_lt_of_le step1 step2
    have hz : (2 : ℚ) ^ ((la : Int) - (lb : Int) - 1)
        = (2 : ℚ) ^ la / 2 ^ (lb + 1) := by
      rw [div_eq_mul_inv, ← zpow_natCast (2 : ℚ) la, ← zpow_natCast (2 : ℚ) (lb + 1),
        ← zpow_neg, ← zpow_add₀ (by norm_num : (2 : ℚ) ≠ 0)]
      congr 1
      push_cast
      ring
    rw [hz]
    exact key
  unfold fracExp
  simp only [← hla, ← hlb]
  split
  · next hbranch =>
    have := two_zpow_lt_two_zpow (lt_trans hlow h)
    omega
  · next hbranch =>
    have hge : (pow2 ((la : Int) - (lb : Int))).val ≤ q.val := by
      by_contra hc
      push_neg at hc
      exact hbranch ((fracLt_iff hq (pow2_pos _)).mpr hc)
    rw [pow2_val] at hge
    have := two_zpow_lt_two_zpow (lt_of_le_of_lt hge h)
    omega

/-- Rounding is exact on values that are integers of magnitude below
`2 ^ 53` (such values sit on the binary64 grid). -/
lemma roundQfin_exact {q : Frac} (hpos : q.Pos) {z : Int} (hval : q.val = (z : ℚ))
    (hz : |z| < 2 ^ 53) (hz0 : z ≠ 0) :
    (roundQfin q).Pos ∧ (roundQfin q).val = (z : ℚ) := by
  have hnum0 : q.num ≠ 0 := by
    intro hc
    have : q.val = 0 := by unfold Frac.val; rw [hc]; simp
    rw [hval] at this
    exact hz0 (by exact_mod_cast this)
  have habs_val : (fracAbs q).val = ((|z| : ℤ) : ℚ) := by
    rw [fracAbs_val hpos, hval]
    push_cast
    rfl
  have habs_lt : (fracAbs q).val < (2 : ℚ) ^ (53 : ℤ) := by
    rw [habs_val]
    have h1 : ((|z| : ℤ) : ℚ) < ((2 ^ 53 : ℤ) : ℚ) := by exact_mod_cast hz
    calc ((|z| : ℤ) : ℚ) < ((2 ^ 53 : ℤ) : ℚ) := h1
      _ = (2 : ℚ) ^ (53 : ℤ) := by push_cast; norm_num
  have habs_num : 0 < (fracAbs q).num := by
    unfold fracAbs
    simpa using abs_pos.mpr hnum0
  have he : fracExp (fracAbs q) < 53 := fracExp_lt (fracAbs_pos hpos) habs_num habs_lt
  have hk_le : gridExp q ≤ 0 := by unfold gridExp; omega
  have hnegk : 0 ≤ -gridExp q := by omega
  set k := gridExp q with hkdef
  set n := (-k).toNat with hndef
  unfold roundQfin
  set scaled := fracMul q (pow2 (-k)) with hscaled
  have hscaled_pos : scaled.Pos := fracMul_pos hpos (pow2_pos _)
  have hscaled_val : scaled.val = ((z * 2 ^ n : ℤ) : ℚ) := by
    rw [hscaled, fracMul_val, hval, pow2_val]
    have h2 : (2 : ℚ) ^ (-k) = (2 : ℚ) ^ n := by
      rw [← zpow_natCast (2 : ℚ) n, hndef, Int.toNat_of_nonneg hnegk]
    rw [h2]
    push_cast
    ring
  have hm : roundHalfEvenF scaled = z * 2 ^ n :=
    roundHalfEvenF_intValued hscaled_pos
      (Frac.num_eq_of_val_int hscaled_pos hscaled_val)
  rw [hm]
  refine ⟨fracOfScaled_pos _ _, ?_⟩
  rw [fracOfScaled_val_of_nonpos _ hk_le, ← hndef]
  push_cast
  rw [mul_div_assoc]
  have h2n : ((2 : ℚ) ^ n) ≠ 0 := by positivity
  rw [div_self h2n, mul_one]

lemma roundQ_exact {q : Frac} (hpos : q.Pos) {z : Int} (hval : q.val = (z : ℚ))
    (hz : |z| < 2 ^ 53) :
    ∃ y : Frac, roundQ q = .finite y ∧ y.Pos ∧ y.val = (z : ℚ) := by
  by_cases hz0 : z = 0
  · subst hz0
    have hnum : q.num = 0 := by
      have h := Frac.num_eq_of_val_int hpos (by simpa using hval)
      simpa using h
    refine ⟨⟨0, 1⟩, ?_, by norm_num [Frac.Pos], by norm_num [Frac.val]⟩
    unfold roundQ
    rw [if_pos hnum]
  · obtain ⟨hy_pos, hy_val⟩ := roundQfin_exact hpos hval hz hz0
    have hnum : q.num ≠ 0 := by
      intro hc
      have h : q.val = 0 := by unfold Frac.val; rw [hc]; simp
      rw [hval] at h
      exact hz0 (by exact_mod_cast h)
    refine ⟨roundQfin q, ?_, hy_pos, hy_val⟩
    unfold roundQ
    rw [if_neg hnum, if_pos ?_]
    rw [fracLt_iff (fracAbs_pos hy_pos) (pow2_pos _), fracAbs_val hy_pos, hy_val,
      pow2_val]
    have h1 : |((z : ℤ) : ℚ)| < (2 : ℚ) ^ (53 : ℤ) := by
      have : ((|z| : ℤ) : ℚ) < ((2 ^ 53 : ℤ) : ℚ) := by exact_mod_cast hz
      push_cast at this ⊢
      calc |((z : ℤ) : ℚ)| < (2 : ℚ) ^ (53 : ℕ) := by
            rw [← Int.cast_abs]
            exact_mod_cast this
        _ = (2 : ℚ) ^ (53 : ℤ) := by norm_num
    calc |((z : ℤ) : ℚ)| < (2 : ℚ) ^ (53 : ℤ) := h1
      _ ≤ (2 : ℚ) ^ (1024 : ℤ) := two_zpow_mono (by norm_num)

/-- `int64(f)` recovers an integer-valued finite float in range. -/
lemma f64ToInt64_exact {y : Frac} (hpos : y.Pos) {z : Int} (hval : y.val = (z : ℚ))
    (hz : |z| < 2 ^ 63) : f64ToInt64 (.finite y) = z := by
  have hnum := Frac.num_eq_of_val_int hpos hval
  have hden : (y.den : Int) ≠ 0 := by
    have : (0 : Int) < (y.den : Int) := by exact_mod_cast hpos
    omega
  have htr : fracTruncInt y = z := by
    unfold fracTruncInt
    rw [hnum, Int.mul_tdiv_cancel z hden]
  show (let t := fracTruncInt y;
    if t < -9223372036854775808 ∨ 9223372036854775808 ≤ t
    then -9223372036854775808 else t) = z
  rw [htr]
  have hb := abs_lt.mp hz
  norm_num at hb
  rw [if_neg (by omega)]

/-- `isInt` holds at an integer-valued finite float of magnitude below
`2 ^ 53`, and the int64 conversion recovers the integer. -/
lemma isIntGo_intValued {y : Frac} (hpos : y.Pos) {z : Int} (hval : y.val = (z : ℚ))
    (hz : |z| < 2 ^ 53) : isIntGo (.finite y) = true ∧ f64ToInt64 (.finite y) = z := by
  have h63 : |z| < 2 ^ 63 := lt_of_lt_of_le hz (by norm_num)
  have hconv := f64ToInt64_exact hpos hval h63
  refine ⟨?_, hconv⟩
  unfold isIntGo
  rw [hconv]
  obtain ⟨y', hy', hy'_pos, hy'_val⟩ := roundQ_exact
    (q := ⟨z, 1⟩) (by norm_num [Frac.Pos]) (by norm_num [Frac.val]) hz
  unfold i64ToF
  rw [hy']
  show fracEqB y y' = true
  rw [fracEqB_iff hpos hy'_pos, hval, hy'_val]

/-! ### The object model (package `object`)

The tagged universe of runtime values.  Pointer-valued Go fields that can
be nil (slots of the VM stack, captured free variables) are embedded as
`Option Object`.  The `Closure` struct itself is absent from the source
tree (only its uses in vm/vm.go and the spec describe it);
its two fields are modelled from the spec: a reference to a
CompiledLambda plus an ordered vector of captured free values. -/

/-- CompiledLambda: instruction bytes, locals count, parameter count. -/
structure CompiledLambdaV where
  instructions : List Nat
  localsCount : Nat
  parameterCount : Nat
deriving Repr

/-- HashKey = (type tag, 64-bit payload). -/
structure HashKey where
  type : String
  value : Nat
deriving DecidableEq, Repr

/-- The runtime value universe.  `LambdaObject` (the tree-walking
evaluator's function value) never occurs in the compiled pipeline and is
omitted.  A `dictionary` stores hash-key-indexed pairs of (key object,
value object); Go's map iteration order is not guaranteed, the embedding
keeps insertion order. -/
inductive Object where
  | integer (value : Int)
  | float (value : GoFloat)
  | str (value : String)
  | boolean (value : Bool)
  | null
  | list (values : List Object)
  | dictionary (values : List (HashKey × Object × Object))
  | error (message : String)
  | functionObj (name : String)
  | compiledLambda (lam : CompiledLambdaV)
  | closure (lam : CompiledLambdaV) (free : List (Option Object))
deriving Repr

/-- `Type()` of each object variant (the `*_OBJ` constants).  The Closure
variant has no Type method in the visible source; the VM only inspects it
through a type switch, so the tag below is never consulted. -/
def typeOf : Object → String
  | .integer _ => "INTEGER"
  | .float _ => "FLOAT"
  | .str _ => "STRING"
  | .boolean _ => "BOOL"
  | .null => "NULL"
  | .list _ => "LIST"
  | .dictionary _ => "DICT"
  | .error _ => "ERROR"
  | .functionObj _ => "FUNCTION"
  | .compiledLambda _ => "COMPILED_FUNCTION_OBJ"
  | .closure _ _ => "CLOSURE"

/-- Left-pad a string with zeros up to a width. -/
def padZeros (s : String) (w : Nat) : String :=
  String.mk (List.replicate (w - s.length) '0') ++ s

/-- Go `%f` of a finite float: fixed six decimals (Go's strconv rounds
the exact binary value to the nearest decimal at that precision). -/
def formatFixed6 (q : Frac) : String :=
  let sign := if q.num < 0 then "-" else ""
  let scaled := (roundHalfEvenF ⟨(q.num.natAbs : Int) * 1000000, q.den⟩).toNat
  sign ++ toString (scaled / 1000000) ++ "."
    ++ padZeros (toString (scaled % 1000000)) 6

/-- Go `%f` rendering of a float64. -/
def formatFloat : GoFloat → String
  | .finite q => formatFixed6 q
  | .inf => "+Inf"
  | .neginf => "-Inf"
  | .nan => "NaN"

/-- Concatenate with a separator (strings.Join). -/
def joinSep (sep : String) : List String → String
  | [] => ""
  | [s] => s
  | s :: rest => s ++ sep ++ joinSep sep rest

/-- `Inspect()` of each variant.  The CompiledLambda and Closure variants
render their pointer address in Go, which has no counterpart in the
embedding; a fixed placeholder stands in for the address digits.  No
theorem depends on those two renderings. -/
def inspect : Object → String
  | .integer v => toString v
  | .float f => formatFloat f
  | .str s => s
  | .boolean b => if b then "true" else "false"
  | .null => "null"
  | .list vs => "(" ++ joinSep " " (vs.attach.map (fun v => inspect v.1)) ++ ")"
  | .dictionary kvs =>
    "\x7b" ++ joinSep ", "
      (kvs.attach.map (fun p => inspect p.1.2.1 ++ ": " ++ inspect p.1.2.2))
      ++ "\x7d"
  | .error m => "ERROR: " ++ m
  | .functionObj name => name
  | .compiledLambda _ => "CompiledLambda[0x0]"
  | .closure _ _ => "Closure[0x0]"
termination_by o => sizeOf o
decreasing_by
  · have h := List.sizeOf_lt_of_mem v.2
    simp only [Object.list.sizeOf_spec]
    omega
  · obtain ⟨⟨k, a, b⟩, hmem⟩ := p
    have h := List.sizeOf_lt_of_mem hmem
    simp only [Prod.mk.sizeOf_spec] at h
    simp only [Object.dictionary.sizeOf_spec]
    omega
  · obtain ⟨⟨k, a, b⟩, hmem⟩ := p
    have h := List.sizeOf_lt_of_mem hmem
    simp only [Prod.mk.sizeOf_spec] at h
    simp only [Object.dictionary.sizeOf_spec]
    omega

/-- Errors from the error-constructor file (part of package object). -/
def badTypeError (fn : String) (obj : Object) : Object :=
  .error ("attempted to call " ++ fn ++ " with unsupported type "
    ++ typeOf obj ++ " (" ++ inspect obj ++ ")")

def badKeyError (obj : Object) : Object :=
  .error ("attempted to use unsupported type as dict key "
    ++ typeOf obj ++ " (" ++ inspect obj ++ ")")

def noArgsError (fn : String) : Object :=
  .error ("attempted to call " ++ fn ++ " with no arguments")

def wrongNumOfArgsError (fn expected : String) (got : Nat) : Object :=
  .error ("attempted to call " ++ fn
    ++ " with incorrect number of arguments: expected " ++ expected
    ++ ", got=" ++ toString got)

/-- `result.Type() == object.ERROR_OBJ`. -/
def isError (o : Object) : Bool :=
  match o with
  | .error _ => true
  | _ => false

/-- `evalTruthy` from the builtins file: booleans by value, Null false,
everything else true. -/
def evalTruthy : Object → Bool
  | .boolean b => b
  | .null => false
  | _ => true

/-- UTF-8 encoding of a character (Go `[]byte(string)`). -/
def utf8EncodeChar (c : Char) : List Nat :=
  let n := c.toNat
  if n < 128 then [n]
  else if n < 2048 then [192 + n / 64, 128 + n % 64]
  else if n < 65536 then [224 + n / 4096, 128 + n / 64 % 64, 128 + n % 64]
  else [240 + n / 262144, 128 + n / 4096 % 64, 128 + n / 64 % 64, 128 + n % 64]

/-- 64-bit FNV-1a over the UTF-8 bytes of a string (hash/fnv). -/
def fnv1a64 (s : String) : Nat :=
  (s.data.flatMap utf8EncodeChar).foldl
    (fun h b => ((h ^^^ b) * 1099511628211) % 18446744073709551616)
    14695981039346656037

/-- The `Hashable` protocol: `HashKey()` for Integer, Boolean and String
(note the legacy quirk: booleans share the STRING type tag); `none`
for every other variant (the Go type assertion to `Hashable` fails). -/
def hashKeyOf : Object → Option HashKey
  | .integer v => some ⟨"INTEGER", (v % 18446744073709551616).toNat⟩
  | .boolean b => some ⟨"STRING", if b then 1 else 0⟩
  | .str s => some ⟨"STRING", fnv1a64 s⟩
  | _ => none

/-- Lookup in a dictionary's hash map. -/
def mapLookup : List (HashKey × Object × Object) → HashKey → Option (Object × Object)
  | [], _ => none
  | (k, pair) :: rest, key => if k = key then some pair else mapLookup rest key

/-- Insert (replace-or-append) in a dictionary's hash map. -/
def mapInsert : List (HashKey × Object × Object) → HashKey → Object × Object →
    List (HashKey × Object × Object)
  | [], key, pair => [(key, pair)]
  | (k, p) :: rest, key, pair =>
    if k = key then (key, pair) :: rest else (k, p) :: mapInsert rest key pair

/-! ### Builtins (the builtins file of package `object`)

Each builtin is a native function from an argument slice to an object.
The embedding returns `Option Object`: `none` models a Go runtime panic
(index out of range on an empty slice, method call on a nil interface);
`some o` is a normal return.  Where the Go source evaluates an error
constructor without `return`ing it, the embedding binds the constructed
value to a discarded `let`, mirroring the discard. -/

/-- The accumulation loop of builtin `+`: `result` starts at float64 0
and each Integer (converted by `float64(...)`) or Float argument is added;
any other argument type returns a BadTypeError immediately. -/
def sumLoop : GoFloat → List Object → Except Object GoFloat
  | result, [] => .ok result
  | result, .integer v :: rest => sumLoop (fadd result (i64ToF v)) rest
  | result, .float f :: rest => sumLoop (fadd result f) rest
  | _, obj :: _ => .error (badTypeError "+" obj)

/-- Builtin `+`. -/
def goPlus (args : List Object) : Option Object :=
  match sumLoop (.finite ⟨0, 1⟩) args with
  | .error e => some e
  | .ok result =>
    if isIntGo result then some (.integer (f64ToInt64 result))
    else some (.float result)

/-- The `nums` collection loop of `/`: Integers are converted with
`float64(...)`, Floats taken as they are, anything else returns a
BadTypeError immediately. -/
def collectNums : List Object → Except Object (List GoFloat)
  | [] => .ok []
  | .integer v :: rest =>
    match collectNums rest with
    | .error e => .error e
    | .ok ns => .ok (i64ToF v :: ns)
  | .float f :: rest =>
    match collectNums rest with
    | .error e => .error e
    | .ok ns => .ok (f :: ns)
  | obj :: _ => .error (badTypeError "/" obj)

/-- Go `num == 0` on a float64. -/
def goFloatIsZero (f : GoFloat) : Bool :=
  feqF f (.finite ⟨0, 1⟩)

/-- The division fold of builtin `/`: each divisor is checked against 0
before dividing; a zero divisor aborts with the division-by-zero error. -/
def divLoop : GoFloat → List GoFloat → Except Object GoFloat
  | result, [] => .ok result
  | result, num :: rest =>
    if goFloatIsZero num then .error (.error "Attempted to divide by 0")
    else divLoop (fdiv result num) rest

/-- Builtin `/`: no arguments is an error; one argument is the float
reciprocal `1 / nums[0]` (no zero check); otherwise a left fold of
divisions over `nums[1:]` with the result demoted to Integer when it is
exactly integral. -/
def goDiv (args : List Object) : Option Object :=
  if args.length = 0 then some (noArgsError "/")
  else
    match collectNums args with
    | .error e => some e
    | .ok nums =>
      match nums.head? with
      | none => none
      | some n0 =>
        if nums.length = 1 then some (.float (fdiv (.finite ⟨1, 1⟩) n0))
        else
          match divLoop n0 nums.tail with
          | .error e => some e
          | .ok result =>
            if isIntGo result then some (.integer (f64ToInt64 result))
            else some (.float result)

/-- Builtin `not`: single argument; an Error argument is returned as is;
otherwise the negation of `evalTruthy`. -/
def goNot (args : List Object) : Option Object :=
  if args.length ≠ 1 then some (wrongNumOfArgsError "not" "1" args.length)
  else
    match args.head? with
    | none => none
    | some a =>
      if isError a then some a
      else if evalTruthy a then some (.boolean false) else some (.boolean true)

/-- Builtin `first`: `list.Values[0]` without a bounds check — on an
empty list the index access panics (`none`). -/
def goFirst (args : List Object) : Option Object :=
  if args.length ≠ 1 then some (wrongNumOfArgsError "first" "1" args.length)
  else
    match args.head? with
    | none => none
    | some a =>
      if typeOf a ≠ "LIST" then some (badTypeError "first" a)
      else
        match a with
        | .list vs => vs.head?
        | _ => none

/-- Builtin `last`: `list.Values[len-1]` without a bounds check — on an
empty list the index access panics (`none`). -/
def goLast (args : List Object) : Option Object :=
  if args.length ≠ 1 then some (wrongNumOfArgsError "last" "1" args.length)
  else
    match args.head? with
    | none => none
    | some a =>
      if typeOf a ≠ "LIST" then some (badTypeError "last" a)
      else
        match a with
        | .list vs => vs.getLast?
        | _ => none

/-- Builtin `pop!` (its return value; the in-place mutation of the list
is not observable through the return value): explicit empty-list check
returning an Error, then the last element. -/
def goPop (args : List Object) : Option Object :=
  if args.length ≠ 1 then some (wrongNumOfArgsError "pop" "1" args.length)
  else
    match args.head? with
    | none => none
    | some a =>
      if typeOf a ≠ "LIST" then
        some (.error ("argument to pop should be list. got="
          ++ typeOf a ++ "(" ++ inspect a ++ ")"))
      else
        match a with
        | .list vs =>
          if vs.length = 0 then some (.error "attemped to pop from empty list")
          else vs.getLast?
        | _ => none

/-- Builtin `get`: the wrong-argument-count and bad-key error objects are
constructed but not returned (no `return` statement in the source); the
function then continues with `args[0]`/`args[1]` (panicking when absent)
and, for an unhashable key, panics calling `HashKey()` on a nil
interface.  A missing key yields Null. -/
def goGet (args : List Object) : Option Object :=
  let _discarded :=
    if args.length ≠ 2 then some (wrongNumOfArgsError "get" "2" args.length)
    else none
  match args.head? with
  | none => none
  | some dictObj =>
    match (args.drop 1).head? with
    | none => none
    | some keyObj =>
      if typeOf dictObj ≠ "DICT" then
        some (.error ("attempted to get from " ++ typeOf dictObj ++ "("
          ++ inspect dictObj ++ ") instead of dict"))
      else
        match dictObj with
        | .dictionary values =>
          match hashKeyOf keyObj with
          | none => none
          | some hk =>
            match mapLookup values hk with
            | none => some .null
            | some pair => some pair.2
        | _ => none

/-- Builtin `set`: like `get`, the wrong-argument-count (note the source
passes "get" as the name) and bad-key error objects are constructed but
not returned; the dictionary is updated in place and returned. -/
def goSet (args : List Object) : Option Object :=
  let _discarded :=
    if args.length ≠ 3 then some (wrongNumOfArgsError "get" "3" args.length)
    else none
  match args.head? with
  | none => none
  | some dictObj =>
    match (args.drop 1).head? with
    | none => none
    | some keyObj =>
      match (args.drop 2).head? with
      | none => none
      | some value =>
        if typeOf dictObj ≠ "DICT" then
          some (.error ("attempted to get from " ++ typeOf dictObj ++ "("
            ++ inspect dictObj ++ ") instead of dict"))
        else
          match hashKeyOf keyObj with
          | none => none
          | some hk =>
            match dictObj with
            | .dictionary values =>
              some (.dictionary (mapInsert values hk (keyObj, value)))
            | _ => none

/-- The names of the `Builtins` table, in declaration order (the order
fixes the `OpGetBuiltin` indices). -/
def builtinNames : List String :=
  ["+", "*", "-", "/", "rem", "=", "<", ">", "not", "and", "or",
   "list", "dict", "first", "rest", "last", "len", "push", "push!",
   "pop!", "str", "print", "get", "set"]

/-! ### Symbol tables (compiler/symbol_table.go)

The file holds two variants of the symbol table.  The first (early)
variant has only Global/Local scopes, and its `Define` returns the
already-stored symbol when the name exists.  The second variant (the one
the compiled pipeline uses: it has FreeSymbols and the Builtin/Free/
Function scopes) defines unconditionally, overwriting any existing
symbol and consuming a fresh index.  Go maps are embedded as association
lists with replace-or-append update; Go's pointer mutation is embedded
by returning the updated table. -/

inductive SymbolScope where
  | global
  | local
  | builtin
  | free
  | function
deriving DecidableEq, Repr

structure SymbolV where
  name : String
  scope : SymbolScope
  index : Nat
deriving DecidableEq, Repr

/-- Go map read `st.store[s]`. -/
def storeLookup : List (String × SymbolV) → String → Option SymbolV
  | [], _ => none
  | (k, v) :: rest, s => if k = s then some v else storeLookup rest s

/-- Go map write `st.store[s] = sym`. -/
def storeUpdate : List (String × SymbolV) → String → SymbolV → List (String × SymbolV)
  | [], s, sym => [(s, sym)]
  | (k, v) :: rest, s, sym =>
    if k = s then (s, sym) :: rest else (k, v) :: storeUpdate rest s sym

/-- The second (compiled-pipeline) symbol table variant. -/
inductive SymbolTable where
  | mk (store : List (String × SymbolV)) (count : Nat)
       (outer : Option SymbolTable) (freeSymbols : List SymbolV)

def SymbolTable.store : SymbolTable → List (String × SymbolV)
  | .mk s _ _ _ => s

def SymbolTable.count : SymbolTable → Nat
  | .mk _ c _ _ => c

def SymbolTable.outer : SymbolTable → Option SymbolTable
  | .mk _ _ o _ => o

def SymbolTable.freeSymbols : SymbolTable → List SymbolV
  | .mk _ _ _ f => f

/-- `NewSymbolTable`. -/
def newSymbolTable : SymbolTable := .mk [] 0 none []

/-- `NewEnclosedSymbolTable`. -/
def newEnclosedSymbolTable (outer : SymbolTable) : SymbolTable :=
  .mk [] 0 (some outer) []

/-- `Define` (second variant): unconditionally store a symbol at the next
count index, Global at top level and Local inside a lambda scope. -/
def SymbolTable.define : SymbolTable → String → SymbolV × SymbolTable
  | .mk store count outer free, s =>
    let scope := match outer with
      | none => SymbolScope.global
      | some _ => SymbolScope.local
    let sym : SymbolV := ⟨s, scope, count⟩
    (sym, .mk (storeUpdate store s sym) (count + 1) outer free)

/-- `DefineBuiltin`: record a Builtin symbol at the caller's index (the
definition count is untouched). -/
def SymbolTable.defineBuiltin : SymbolTable → Nat → String → SymbolV × SymbolTable
  | .mk store count outer free, index, name =>
    let sym : SymbolV := ⟨name, SymbolScope.builtin, index⟩
    (sym, .mk (storeUpdate store name sym) count outer free)

/-- `DefineFunctionName`: record a Function-scope symbol at index 0. -/
def SymbolTable.defineFunctionName : SymbolTable → String → SymbolV × SymbolTable
  | .mk store count outer free, name =>
    let sym : SymbolV := ⟨name, SymbolScope.function, 0⟩
    (sym, .mk (storeUpdate store name sym) count outer free)

/-- `defineFree`: append the original symbol to FreeSymbols, store and
return a Free symbol at index `len(FreeSymbols) - 1`. -/
def SymbolTable.defineFree : SymbolTable → SymbolV → SymbolV × SymbolTable
  | .mk store count outer freeSyms, original =>
    let frees := freeSyms ++ [original]
    let free : SymbolV := ⟨original.name, SymbolScope.free, frees.length - 1⟩
    (free, .mk (storeUpdate store original.name free) count outer frees)

/-- The post-processing `Resolve` applies to the outer table's result:
a hit from a non-global, non-builtin enclosing scope is converted to a
Free symbol in this table. -/
def resolveOuterResult (store : List (String × SymbolV)) (count : Nat)
    (freeSyms : List SymbolV) :
    Option SymbolV × SymbolTable → Option SymbolV × SymbolTable
  | (none, out') => (none, .mk store count (some out') freeSyms)
  | (some sym, out') =>
    if sym.scope ≠ SymbolScope.builtin ∧ sym.scope ≠ SymbolScope.global then
      let r := SymbolTable.defineFree (.mk store count (some out') freeSyms) sym
      (some r.1, r.2)
    else
      (some sym, .mk store count (some out') freeSyms)

/-- `Resolve` (second variant): local lookup; on a miss recurse into the
outer table (whose own promotions persist — the embedding threads the
updated outer back), post-processing the result with
`resolveOuterResult`. -/
def SymbolTable.resolve : SymbolTable → String → Option SymbolV × SymbolTable
  | .mk store count outerOpt freeSyms, s =>
    match storeLookup store s, outerOpt with
    | some sym, _ => (some sym, .mk store count outerOpt freeSyms)
    | none, none => (none, .mk store count none freeSyms)
    | none, some out =>
      resolveOuterResult store count freeSyms (SymbolTable.resolve out s)

/-- The first (early) symbol table variant, Global/Local only. -/
inductive SymbolTableV1 where
  | mk (store : List (String × SymbolV)) (count : Nat) (outer : Option SymbolTableV1)

def SymbolTableV1.store : SymbolTableV1 → List (String × SymbolV)
  | .mk s _ _ => s

def SymbolTableV1.count : SymbolTableV1 → Nat
  | .mk _ c _ => c

def SymbolTableV1.outer : SymbolTableV1 → Option SymbolTableV1
  | .mk _ _ o => o

/-- `Define` (first variant): an existing symbol is returned unchanged —
the first definition wins, no index is consumed. -/
def SymbolTableV1.define : SymbolTableV1 → String → SymbolV × SymbolTableV1
  | .mk store count outer, s =>
    match storeLookup store s with
    | some sym => (sym, .mk store count outer)
    | none =>
      let scope := match outer with
        | none => SymbolScope.global
        | some _ => SymbolScope.local
      let sym : SymbolV := ⟨s, scope, count⟩
      (sym, .mk (storeUpdate store s sym) (count + 1) outer)

lemma storeLookup_update (store : List (String × SymbolV)) (s : String) (sym : SymbolV) :
    storeLookup (storeUpdate store s sym) s = some sym := by
  induction store with
  | nil => simp [storeUpdate, storeLookup]
  | cons kv rest ih =>
    obtain ⟨k, v⟩ := kv
    by_cases h : k = s
    · simp [storeUpdate, storeLookup, h]
    · simp [storeUpdate, storeLookup, h, ih]

/-! ### The AST surface the compiler consumes (package `ast`)

Each node's `String()` returns its token literal (or, for S-expressions,
the parenthesised recursive rendering); literals are therefore carried in
the embedding.  `SExpression.Name` is the field the `def` special form
mutates before compiling its right-hand side. -/

inductive Expression where
  | program (expressions : List Expression)
  | identifier (literal : String)
  | integerLit (value : Int) (literal : String)
  | floatLit (value : GoFloat) (literal : String)
  | stringLit (value : String) (literal : String)
  | sexp (fn : Option Expression) (args : List Expression) (name : String)
deriving Repr

/-- Work items for the fueled `String()` rendering (one item per Go loop;
the fuel keeps the recursion structural and kernel-computable). -/
inductive StrTask where
  | one (e : Expression)
  | concatAll (es : List Expression)
  | spacedArgs (es : List Expression)

/-- Fueled `String()`: `one` renders a node, `concatAll` is the Program
loop, `spacedArgs` the S-expression argument loop (space before each). -/
def exprStrAux : Nat → StrTask → String
  | 0, _ => ""
  | fuel + 1, .one e =>
    match e with
    | .program es => exprStrAux fuel (.concatAll es)
    | .identifier lit => lit
    | .integerLit _ lit => lit
    | .floatLit _ lit => lit
    | .stringLit _ lit => lit
    | .sexp fn args _ =>
      "(" ++ (match fn with
              | none => ""
              | some f => exprStrAux fuel (.one f))
        ++ exprStrAux fuel (.spacedArgs args) ++ ")"
  | _ + 1, .concatAll [] => ""
  | fuel + 1, .concatAll (e :: rest) =>
    exprStrAux fuel (.one e) ++ exprStrAux fuel (.concatAll rest)
  | _ + 1, .spacedArgs [] => ""
  | fuel + 1, .spacedArgs (e :: rest) =>
    " " ++ exprStrAux fuel (.one e) ++ exprStrAux fuel (.spacedArgs rest)

/-- `Expression.String()` with fuel (exact once the fuel exceeds the
nesting depth of the node). -/
def exprString (fuel : Nat) (e : Expression) : String := exprStrAux fuel (.one e)

/-! ### The compiler (compiler/compiler.go, second document) -/

/-- An emitted instruction: opcode and position.  The Go zero value is
`(Opcode(0), 0)`, that is `(OpConstant, 0)`. -/
structure EmittedInstruction where
  opcode : Opcode
  position : Nat
deriving Repr

/-- A compilation scope: its growing instruction buffer and the last two
emitted instructions. -/
structure CompilationScope where
  instructions : List Nat
  lastInstruction : EmittedInstruction
  previousInstruction : EmittedInstruction
deriving Repr

/-- A fresh scope (`mainScope` and the scope `enterScope` pushes). -/
def freshScope : CompilationScope :=
  ⟨[], ⟨.opConstant, 0⟩, ⟨.opConstant, 0⟩⟩

/-- The compiler state.  Go keeps `scopes` as a slice with
`scopeIndex = len - 1` always pointing at the last element; the
embedding keeps the active scope at the head of the list. -/
structure Compiler where
  constants : List Object
  symbolTable : SymbolTable
  scopes : List CompilationScope

def Compiler.currentScope (c : Compiler) : CompilationScope :=
  c.scopes.headD freshScope

def Compiler.currentInstructions (c : Compiler) : List Nat :=
  c.currentScope.instructions

def Compiler.withCurrentScope (c : Compiler) (s : CompilationScope) : Compiler :=
  { c with scopes := s :: c.scopes.tail }

/-- `DefineBuiltin` over the builtins table in order (compiler `New`). -/
def defineBuiltinsFrom : SymbolTable → Nat → List String → SymbolTable
  | st, _, [] => st
  | st, i, n :: rest => defineBuiltinsFrom (st.defineBuiltin i n).2 (i + 1) rest

/-- `New`: a main scope, an empty constants pool, and a root symbol
table preloaded with the builtins. -/
def compilerNew : Compiler :=
  ⟨[], defineBuiltinsFrom newSymbolTable 0 builtinNames, [freshScope]⟩

/-- `addConstant`: append and return the index of the new constant. -/
def Compiler.addConstant (c : Compiler) (obj : Object) : Compiler × Nat :=
  ({ c with constants := c.constants ++ [obj] }, c.constants.length)

/-- `addInstruction`: append bytes to the active scope, returning the
position at which they start. -/
def Compiler.addInstruction (c : Compiler) (ins : List Nat) : Compiler × Nat :=
  let pos := c.currentInstructions.length
  (c.withCurrentScope { c.currentScope with
    instructions := c.currentScope.instructions ++ ins }, pos)

/-- `setLastInstruction`. -/
def Compiler.setLastInstruction (c : Compiler) (op : Opcode) (pos : Nat) : Compiler :=
  c.withCurrentScope { c.currentScope with
    previousInstruction := c.currentScope.lastInstruction
    lastInstruction := ⟨op, pos⟩ }

/-- `emit`: Make the instruction, append it, record it as last. -/
def Compiler.emit (c : Compiler) (op : Opcode) (operands : List Nat) : Compiler × Nat :=
  let ins := Make op operands
  let (c1, pos) := c.addInstruction ins
  (c1.setLastInstruction op pos, pos)

/-- Overwrite bytes starting at a position (`replaceInstruction`'s loop;
`List.set` out of range is the identity where Go would panic — all uses
are in range). -/
def writeBytesAt : List Nat → Nat → List Nat → List Nat
  | ins, _, [] => ins
  | ins, pos, b :: bs => writeBytesAt (ins.set pos b) (pos + 1) bs

def Compiler.replaceInstruction (c : Compiler) (pos : Nat) (newIns : List Nat) : Compiler :=
  c.withCurrentScope { c.currentScope with
    instructions := writeBytesAt c.currentScope.instructions pos newIns }

/-- The inverse of `Opcode.byte` (the Go cast `code.Opcode(b)` followed by
the definitions lookup). -/
def opcodeOfByte (b : Nat) : Option Opcode :=
  match b with
  | 0 => some .opConstant
  | 1 => some .opPop
  | 2 => some .opTrue
  | 3 => some .opFalse
  | 4 => some .opJumpWhenFalse
  | 5 => some .opJump
  | 6 => some .opNull
  | 7 => some .opGetGlobal
  | 8 => some .opSetGlobal
  | 9 => some .opCall
  | 10 => some .opReturn
  | 11 => some .opGetLocal
  | 12 => some .opSetLocal
  | 13 => some .opEmptyList
  | 14 => some .opGetBuiltin
  | 15 => some .opClosure
  | 16 => some .opGetFree
  | 17 => some .opCurrentClosure
  | _ => none

/-- `changeOperand`: re-Make the instruction at `opPos` with the new
operand and overwrite it in place (a byte with no Definition would Make
an empty slice, leaving the buffer unchanged). -/
def Compiler.changeOperand (c : Compiler) (opPos operand : Nat) : Compiler :=
  match opcodeOfByte (c.currentInstructions.getD opPos 0) with
  | some op => c.replaceInstruction opPos (Make op [operand])
  | none => c.replaceInstruction opPos []

/-- `getSymbol`: emit the getter matching the symbol's scope. -/
def Compiler.getSymbol (c : Compiler) (sym : SymbolV) : Compiler :=
  match sym.scope with
  | .global => (c.emit .opGetGlobal [sym.index]).1
  | .local => (c.emit .opGetLocal [sym.index]).1
  | .builtin => (c.emit .opGetBuiltin [sym.index]).1
  | .free => (c.emit .opGetFree [sym.index]).1
  | .function => (c.emit .opCurrentClosure []).1

/-- `enterScope`: push a fresh scope and enclose the symbol table. -/
def Compiler.enterScope (c : Compiler) : Compiler :=
  { c with scopes := freshScope :: c.scopes
           symbolTable := newEnclosedSymbolTable c.symbolTable }

/-- `leaveScope`: pop the active scope, returning its instructions, and
restore the outer symbol table (never called on the root scope, whose
missing outer is defaulted). -/
def Compiler.leaveScope (c : Compiler) : List Nat × Compiler :=
  (c.currentInstructions,
    { c with scopes := c.scopes.tail
             symbolTable := c.symbolTable.outer.getD newSymbolTable })

/-- Define each lambda parameter (each must be an identifier). -/
def defineParams : List Expression → Compiler → Except String Compiler
  | [], c => .ok c
  | .identifier lit :: rest, c =>
    defineParams rest { c with symbolTable := (c.symbolTable.define lit).2 }
  | _ :: _, _ =>
    .error "function parameters must be identifiers"

/-- Emit the getters for the recorded free symbols, in order. -/
def emitGetSymbols : Compiler → List SymbolV → Compiler
  | c, [] => c
  | c, s :: rest => emitGetSymbols (c.getSymbol s) rest

/-- Work items for the fueled compiler: one per Go function or loop of
compiler.go (`Compile`, the Program loop, the call-argument loop,
`compileIfExpression`, `compileDefExpression`, the first part of
`compileLambdaExpression` up to the Return rewrite, its closure-building
tail, and `compileCallExpression`).  A single fueled function keeps the
mutual recursion structural so that compilation is kernel-computable. -/
inductive CompTask where
  | one (e : Expression)
  | seqPop (es : List Expression)
  | seqPlain (es : List Expression)
  | ifForm (args : List Expression)
  | defForm (args : List Expression)
  | lambdaBody (args : List Expression) (name : String)
  | lambdaForm (args : List Expression) (name : String)
  | callForm (fn : Expression) (args : List Expression)

/-- The compiler proper.  The `Nat` alongside the resulting state is the
parameter count computed by the `lambdaBody` stage (0 elsewhere). -/
def compileAux : Nat → CompTask → Compiler → Except String (Compiler × Nat)
  | 0, _, _ => .error "compiler fuel exhausted"
  | fuel + 1, task, c =>
    match task with
    | .one e =>
      match e with
      | .program exprs => compileAux fuel (.seqPop exprs) c
      | .sexp fn args name =>
        match fn with
        | none => .ok ((c.emit .opEmptyList []).1, 0)
        | some f =>
          if exprString fuel f = "if" then compileAux fuel (.ifForm args) c
          else if exprString fuel f = "def" then compileAux fuel (.defForm args) c
          else if exprString fuel f = "lambda" then
            compileAux fuel (.lambdaForm args name) c
          else compileAux fuel (.callForm f args) c
      | .integerLit v _ =>
        let (c1, idx) := c.addConstant (.integer v)
        .ok ((c1.emit .opConstant [idx]).1, 0)
      | .floatLit v _ =>
        let (c1, idx) := c.addConstant (.float v)
        .ok ((c1.emit .opConstant [idx]).1, 0)
      | .stringLit v _ =>
        let (c1, idx) := c.addConstant (.str v)
        .ok ((c1.emit .opConstant [idx]).1, 0)
      | .identifier lit =>
        if lit = "true" then .ok ((c.emit .opTrue []).1, 0)
        else if lit = "false" then .ok ((c.emit .opFalse []).1, 0)
        else if lit = "null" then .ok ((c.emit .opNull []).1, 0)
        else
          match c.symbolTable.resolve lit with
          | (none, _) => .error ("undefined variable " ++ lit)
          | (some sym, st) =>
            .ok (Compiler.getSymbol { c with symbolTable := st } sym, 0)
    | .seqPop [] => .ok (c, 0)
    | .seqPop (e :: rest) => do
      let (c1, _) ← compileAux fuel (.one e) c
      compileAux fuel (.seqPop rest) (c1.emit .opPop []).1
    | .seqPlain [] => .ok (c, 0)
    | .seqPlain (e :: rest) => do
      let (c1, _) ← compileAux fuel (.one e) c
      compileAux fuel (.seqPlain rest) c1
    | .ifForm args =>
      if args.length < 2 ∨ 3 < args.length then
        .error "incorrect number of values in if expression"
      else
        match args with
        | condition :: consequence :: rest => do
          let (c1, _) ← compileAux fuel (.one condition) c
          let (c2, conditionalJumpPos) := c1.emit .opJumpWhenFalse [9999]
          let (c3, _) ← compileAux fuel (.one consequence) c2
          let (c4, jumpPos) := c3.emit .opJump [9999]
          let positionAfterConsequence := c4.currentInstructions.length
          let c5 := c4.changeOperand conditionalJumpPos positionAfterConsequence
          let c6 ←
            match rest with
            | [] => .ok (c5.emit .opNull []).1
            | alternative :: _ => do
              let (c6, _) ← compileAux fuel (.one alternative) c5
              pure c6
          let positionAfterAlternative := c6.currentInstructions.length
          .ok (c6.changeOperand jumpPos positionAfterAlternative, 0)
        | _ => .error "incorrect number of values in if expression"
    | .defForm args =>
      if args.length ≠ 2 then .error "incorrect number of values in def expression"
      else
        match args with
        | [nameExpr, valueExpr] =>
          match nameExpr with
          | .identifier lit => do
            let (symbol, st) := c.symbolTable.define lit
            let c1 : Compiler := { c with symbolTable := st }
            -- the source tags an S-expression RHS with the defined name
            let tagged := match valueExpr with
              | .sexp f a _ => Expression.sexp f a lit
              | other => other
            let (c2, _) ← compileAux fuel (.one tagged) c1
            match c2.symbolTable.outer with
            | none => .ok ((c2.emit .opSetGlobal [symbol.index]).1, 0)
            | some _ => .ok ((c2.emit .opSetLocal [symbol.index]).1, 0)
          | _ => .error "first argument to def must be identifier"
        | _ => .error "incorrect number of values in def expression"
    | .lambdaBody args name =>
      if args.length < 1 then .error "not enough arguments for lambda definition"
      else
        match args.head? with
        | none => .error "not enough arguments for lambda definition"
        | some paramListExpr =>
          match paramListExpr with
          | .sexp pfn pargs _ => do
            let c1 := c.enterScope
            let c2 :=
              if name ≠ "" then
                { c1 with symbolTable := (c1.symbolTable.defineFunctionName name).2 }
              else c1
            let params := match pfn with
              | none => ([] : List Expression)
              | some f => f :: pargs
            let c3 ← defineParams params c2
            let expressions := args.drop 1
            if expressions.length = 0 then
              let c4 := (c3.emit .opNull []).1
              .ok ((c4.emit .opReturn []).1, params.length)
            else do
              let (c4, _) ← compileAux fuel (.seqPop expressions) c3
              let c5 := c4.replaceInstruction (c4.currentInstructions.length - 1)
                [Opcode.byte .opReturn]
              .ok (c5, params.length)
          | _ => .error "provided args must be a list"
    | .lambdaForm args name => do
      let (cb, paramCount) ← compileAux fuel (.lambdaBody args name) c
      let freeSymbols := cb.symbolTable.freeSymbols
      let localsCount := cb.symbolTable.count
      let (ins, c2) := cb.leaveScope
      let compiledLam : CompiledLambdaV := ⟨ins, localsCount, paramCount⟩
      let c3 := emitGetSymbols c2 freeSymbols
      let (c4, constIdx) := c3.addConstant (.compiledLambda compiledLam)
      .ok ((c4.emit .opClosure [constIdx, freeSymbols.length]).1, 0)
    | .callForm fn args => do
      let (c1, _) ← compileAux fuel (.one fn) c
      let (c2, _) ← compileAux fuel (.seqPlain args) c1
      .ok ((c2.emit .opCall [args.length]).1, 0)

/-- `Compile` on one expression. -/
def compileExpr (fuel : Nat) (e : Expression) (c : Compiler) :
    Except String Compiler :=
  (compileAux fuel (.one e) c).map Prod.fst

/-- `compileLambdaExpression` (the `lambda` arm of the dispatch). -/
def compileLambdaExpression (fuel : Nat) (args : List Expression) (name : String)
    (c : Compiler) : Except String Compiler :=
  (compileAux fuel (.lambdaForm args name) c).map Prod.fst

/-- The state after the lambda body has been compiled and its trailing
Pop rewritten to Return — the point at which the source reads
`c.symbolTable.FreeSymbols` and `c.symbolTable.count`. -/
def compileLambdaBodyStage (fuel : Nat) (args : List Expression) (name : String)
    (c : Compiler) : Except String (Compiler × Nat) :=
  compileAux fuel (.lambdaBody args name) c

/-- `Bytecode()`: instructions of the active scope plus the constants. -/
structure Bytecode where
  instructions : List Nat
  constants : List Object

def Compiler.bytecode (c : Compiler) : Bytecode :=
  ⟨c.currentInstructions, c.constants⟩

/-! ### The remaining builtins

These are not the subject of any claim but complete the `Builtins` table
the VM dispatches into.  Where the source's equality helpers
(`numsEqual` and friends, written against an object variant with a
`Number` type that the compiled pipeline's object model lacks) cannot
match, the embedding mirrors the text: the type switch falls to its
default arm. -/

/-- float64 negation. -/
def fnegF : GoFloat → GoFloat
  | .finite q => .finite ⟨-q.num, q.den⟩
  | .inf => .neginf
  | .neginf => .inf
  | .nan => .nan

/-- float64 subtraction (`result -= num`). -/
def fsub (a b : GoFloat) : GoFloat := fadd a (fnegF b)

/-- float64 multiplication: round the exact product. -/
def fmul : GoFloat → GoFloat → GoFloat
  | .nan, _ => .nan
  | _, .nan => .nan
  | .inf, .inf => .inf
  | .inf, .neginf => .neginf
  | .neginf, .inf => .neginf
  | .neginf, .neginf => .inf
  | .inf, .finite b => if b.num = 0 then .nan else if 0 < b.num then .inf else .neginf
  | .finite b, .inf => if b.num = 0 then .nan else if 0 < b.num then .inf else .neginf
  | .neginf, .finite b => if b.num = 0 then .nan else if 0 < b.num then .neginf else .inf
  | .finite b, .neginf => if b.num = 0 then .nan else if 0 < b.num then .neginf else .inf
  | .finite a, .finite b => roundQ (fracMul a b)

/-- Go `<` on float64 (NaN incomparable). -/
def fltF : GoFloat → GoFloat → Bool
  | .nan, _ => false
  | _, .nan => false
  | .neginf, .neginf => false
  | .neginf, _ => true
  | _, .neginf => false
  | .inf, _ => false
  | _, .inf => true
  | .finite a, .finite b => fracLt a b

/-- The multiplication loop of builtin `*` (`result` starts at 1). -/
def mulLoop : GoFloat → List Object → Except Object GoFloat
  | result, [] => .ok result
  | result, .integer v :: rest => mulLoop (fmul result (i64ToF v)) rest
  | result, .float f :: rest => mulLoop (fmul result f) rest
  | _, obj :: _ => .error (badTypeError "*" obj)

/-- Builtin `*`. -/
def goMul (args : List Object) : Option Object :=
  match mulLoop (.finite ⟨1, 1⟩) args with
  | .error e => some e
  | .ok result =>
    if isIntGo result then some (.integer (f64ToInt64 result))
    else some (.float result)

/-- The `nums` collection loop of `-`, `<` and `>` (same shape as the
one `/` uses, with the builtin's own name in the error). -/
def collectNumsFn (fn : String) : List Object → Except Object (List GoFloat)
  | [] => .ok []
  | .integer v :: rest =>
    match collectNumsFn fn rest with
    | .error e => .error e
    | .ok ns => .ok (i64ToF v :: ns)
  | .float f :: rest =>
    match collectNumsFn fn rest with
    | .error e => .error e
    | .ok ns => .ok (f :: ns)
  | obj :: _ => .error (badTypeError fn obj)

/-- The subtraction fold of builtin `-`. -/
def subLoop : GoFloat → List GoFloat → GoFloat
  | result, [] => result
  | result, num :: rest => subLoop (fsub result num) rest

/-- Builtin `-`: one argument negates, more fold subtraction, with the
integer demotion on the result. -/
def goMinus (args : List Object) : Option Object :=
  if args.length = 0 then some (noArgsError "-")
  else
    match collectNumsFn "-" args with
    | .error e => some e
    | .ok nums =>
      match nums.head? with
      | none => none
      | some n0 =>
        if nums.length = 1 then
          if isIntGo n0 then some (.integer (-(f64ToInt64 n0)))
          else some (.float (fnegF n0))
        else
          let result := subLoop n0 nums.tail
          if isIntGo result then some (.integer (f64ToInt64 result))
          else some (.float result)

/-- Builtin `rem`: two Integer arguments, Go `%` (truncated modulo);
a zero second argument is an Error. -/
def goRem (args : List Object) : Option Object :=
  if args.length ≠ 2 then some (wrongNumOfArgsError "rem" "2" args.length)
  else
    match args with
    | [.integer a, .integer b] =>
      if b = 0 then some (.error "Attempted rem of 0")
      else some (.integer (Int.tmod a b))
    | [obj, _] =>
      match obj with
      | .integer _ => some (badTypeError "/" (args.getD 1 .null))
      | _ => some (badTypeError "/" obj)
    | _ => none

/-- `numsEqual` of the equality helpers: every element of `rest` must be
a `*Number` with the given value.  The compiled pipeline's object model
has no Number variant, so the switch falls to its default (False) for
any nonempty rest. -/
def numsEqual (_first : GoFloat) (rest : List Object) : Object :=
  match rest with
  | [] => .boolean true
  | _ :: _ => .boolean false

/-- `stringsEqual`. -/
def stringsEqual (first : String) : List Object → Object
  | [] => .boolean true
  | .str s :: rest => if s = first then stringsEqual first rest else .boolean false
  | _ :: _ => .boolean false

/-- `boolEqual`. -/
def boolEqual (first : Bool) : List Object → Object
  | [] => .boolean true
  | .boolean b :: rest => if b = first then boolEqual first rest else .boolean false
  | _ :: _ => .boolean false

/-- `functionsEqual` (builtins compare by name). -/
def functionsEqual (first : String) : List Object → Object
  | [] => .boolean true
  | .functionObj n :: rest =>
    if n = first then functionsEqual first rest else .boolean false
  | _ :: _ => .boolean false

/-- Builtin `=`. -/
def goEq (args : List Object) : Option Object :=
  match args with
  | [] => some (.boolean true)
  | obj :: rest =>
    match obj with
    | .integer v => some (numsEqual (i64ToF v) rest)
    | .float f => some (numsEqual f rest)
    | .str s => some (stringsEqual s rest)
    | .boolean b => some (boolEqual b rest)
    | .functionObj n => some (functionsEqual n rest)
    | _ => some (badTypeError "=" obj)

/-- The strict-increase check of builtin `<`. -/
def strictIncreasing : GoFloat → List GoFloat → Bool
  | _, [] => true
  | prev, n :: rest => if fltF prev n then strictIncreasing n rest else false

/-- Builtin `<`. -/
def goLess (args : List Object) : Option Object :=
  if args.length = 0 then some (wrongNumOfArgsError "<" "at least 1" 0)
  else
    match collectNumsFn "<" args with
    | .error e => some e
    | .ok nums =>
      match nums with
      | [] => none
      | n0 :: rest =>
        if strictIncreasing n0 rest then some (.boolean true)
        else some (.boolean false)

/-- The strict-decrease check of builtin `>`. -/
def strictDecreasing : GoFloat → List GoFloat → Bool
  | _, [] => true
  | prev, n :: rest => if fltF n prev then strictDecreasing n rest else false

/-- Builtin `>`. -/
def goGreater (args : List Object) : Option Object :=
  if args.length = 0 then some (wrongNumOfArgsError ">" "at least 1" 0)
  else
    match collectNumsFn ">" args with
    | .error e => some e
    | .ok nums =>
      match nums with
      | [] => none
      | n0 :: rest =>
        if strictDecreasing n0 rest then some (.boolean true)
        else some (.boolean false)

/-- Builtin `and`: Errors short-circuit; first falsy value gives False. -/
def goAnd : List Object → Option Object
  | [] => some (.boolean true)
  | arg :: rest =>
    if isError arg then some arg
    else if evalTruthy arg then goAnd rest
    else some (.boolean false)

/-- Builtin `or`. -/
def goOr : List Object → Option Object
  | [] => some (.boolean false)
  | arg :: rest =>
    if isError arg then some arg
    else if evalTruthy arg then some (.boolean true)
    else goOr rest

/-- Builtin `list`. -/
def goList (args : List Object) : Option Object := some (.list args)

/-- The pair loop of builtin `dict`. -/
def dictPairs : List (HashKey × Object × Object) → List Object →
    Except Object (List (HashKey × Object × Object))
  | items, [] => .ok items
  | items, key :: value :: rest =>
    match hashKeyOf key with
    | none => .error (badKeyError key)
    | some hk => dictPairs (mapInsert items hk (key, value)) rest
  | items, [_] => .ok items

/-- Builtin `dict`: an odd argument count is an Error; non-hashable keys
are Errors. -/
def goDict (args : List Object) : Option Object :=
  if args.length % 2 ≠ 0 then
    some (wrongNumOfArgsError "dict" "even number" args.length)
  else
    match dictPairs [] args with
    | .error e => some e
    | .ok items => some (.dictionary items)

/-- Builtin `rest`: `list.Values[1:]` (empty input yields the empty
slice in Go, not a panic). -/
def goRest (args : List Object) : Option Object :=
  if args.length ≠ 1 then some (wrongNumOfArgsError "rest" "1" args.length)
  else
    match args.head? with
    | none => none
    | some a =>
      if typeOf a ≠ "LIST" then some (badTypeError "rest" a)
      else
        match a with
        | .list vs => some (.list vs.tail)
        | _ => none

/-- Builtin `len` for lists and strings (string length in bytes). -/
def goLen (args : List Object) : Option Object :=
  if args.length ≠ 1 then some (wrongNumOfArgsError "len" "1" args.length)
  else
    match args.head? with
    | none => none
    | some a =>
      match a with
      | .list vs => some (.integer vs.length)
      | .str s => some (.integer (s.data.flatMap utf8EncodeChar).length)
      | _ => some (badTypeError "len" a)

/-- Builtin `push` (non-mutating append). -/
def goPush (args : List Object) : Option Object :=
  if args.length ≠ 2 then some (wrongNumOfArgsError "push" "2" args.length)
  else
    match args with
    | [a, x] =>
      if typeOf a ≠ "LIST" then
        some (.error ("first argument to concat should be list. got="
          ++ typeOf a ++ "(" ++ inspect a ++ ")"))
      else
        match a with
        | .list vs => some (.list (vs ++ [x]))
        | _ => none
    | _ => none

/-- Builtin `push!` (the returned value; the in-place aliasing is not
observable through the return value). -/
def goPushBang (args : List Object) : Option Object :=
  if args.length ≠ 2 then some (wrongNumOfArgsError "push" "2" args.length)
  else
    match args with
    | [a, x] =>
      if typeOf a ≠ "LIST" then
        some (.error ("first argument to concat should be list. got="
          ++ typeOf a ++ "(" ++ inspect a ++ ")"))
      else
        match a with
        | .list vs => some (.list (vs ++ [x]))
        | _ => none
    | _ => none

/-- Builtin `str`: concatenation of the Inspect renderings. -/
def goStr (args : List Object) : Option Object :=
  some (.str (String.join (args.map inspect)))

/-- Builtin `print`: writes to stdout (outside the modelled state) and
returns Null. -/
def goPrint (_args : List Object) : Option Object := some .null

/-- The `Builtins` table: dispatch a builtin by its name (the VM calls
through the FunctionObject's `Fn` pointer; the embedding carries the
name and dispatches here).  `none` means no such builtin exists. -/
def applyBuiltin (name : String) (args : List Object) : Option (Option Object) :=
  if name = "+" then some (goPlus args)
  else if name = "*" then some (goMul args)
  else if name = "-" then some (goMinus args)
  else if name = "/" then some (goDiv args)
  else if name = "rem" then some (goRem args)
  else if name = "=" then some (goEq args)
  else if name = "<" then some (goLess args)
  else if name = ">" then some (goGreater args)
  else if name = "not" then some (goNot args)
  else if name = "and" then some (goAnd args)
  else if name = "or" then some (goOr args)
  else if name = "list" then some (goList args)
  else if name = "dict" then some (goDict args)
  else if name = "first" then some (goFirst args)
  else if name = "rest" then some (goRest args)
  else if name = "last" then some (goLast args)
  else if name = "len" then some (goLen args)
  else if name = "push" then some (goPush args)
  else if name = "push!" then some (goPushBang args)
  else if name = "pop!" then some (goPop args)
  else if name = "str" then some (goStr args)
  else if name = "print" then some (goPrint args)
  else if name = "get" then some (goGet args)
  else if name = "set" then some (goSet args)
  else none

/-! ### The virtual machine (vm/vm.go second document, vm/frame.go)

The operand stack is a fixed 2048-slot array of nilable object
references, embedded as a total function `Nat → Option Object` indexed
below `StackSize` together with the stack pointer; the globals vector
likewise.  One `vmStep` is one iteration of the Run loop (fetch at
`ip + 1`, dispatch); `halt` is the loop condition failing, `fail` is
Run returning an error, and `crash` models a Go runtime panic (index
out of range, nil dereference). -/

def StackSize : Nat := 2048
def GlobalSize : Nat := 65536
def MaxFrames : Nat := 1024

/-- A call frame: the executing closure (its CompiledLambda and captured
free values), the instruction pointer, and the base-of-locals pointer. -/
structure FrameV where
  closureLam : CompiledLambdaV
  closureFree : List (Option Object)
  ip : Int
  basePointer : Nat

/-- `NewFrame`: `ip = -1` so the first increment lands on 0. -/
def newFrame (lam : CompiledLambdaV) (free : List (Option Object))
    (basePointer : Nat) : FrameV :=
  ⟨lam, free, -1, basePointer⟩

/-- The VM state.  `frames` keeps the active frame at the head (Go keeps
an array with `framesIndex` pointing past the active frame). -/
structure VM where
  constants : List Object
  stack : Nat → Option Object
  sp : Nat
  globals : Nat → Option Object
  frames : List FrameV

/-- `New`: wrap the program in a parameterless lambda and closure,
frame 0 at base pointer 0. -/
def vmNew (bc : Bytecode) : VM :=
  { constants := bc.constants
    stack := fun _ => none
    sp := 0
    globals := fun _ => none
    frames := [newFrame ⟨bc.instructions, 0, 0⟩ [] 0] }

/-- Outcome of one iteration of the Run loop. -/
inductive StepOut where
  | next (vm : VM)
  | halt (vm : VM)
  | fail (msg : String)
  | crash

/-- `push`: bounds-checked write at `sp`. -/
def VM.pushO (vm : VM) (o : Option Object) : Except String VM :=
  if StackSize ≤ vm.sp then .error "stack overflow"
  else .ok { vm with
    stack := fun i => if i = vm.sp then o else vm.stack i
    sp := vm.sp + 1 }

/-- `pop`: read `stack[sp - 1]` and decrement; `none` is the Go panic on
an empty stack (index -1).  The popped slot keeps its value (that is
what `LastPoppedStackElem` reads). -/
def VM.popO (vm : VM) : Option (Option Object × VM) :=
  if vm.sp = 0 then none
  else some (vm.stack (vm.sp - 1), { vm with sp := vm.sp - 1 })

/-- `LastPoppedStackElem`: the slot one past the top. -/
def VM.lastPopped (vm : VM) : Option Object := vm.stack vm.sp

/-- `isTruthy` compares against the interned False and Null singletons
(all booleans the VM handles are the interned ones, so the comparison is
by value); a nil slot equals neither, hence is truthy. -/
def isTruthy (o : Object) : Bool :=
  match o with
  | .boolean false => false
  | .null => false
  | _ => true

def isTruthyOpt : Option Object → Bool
  | none => true
  | some o => isTruthy o

/-- Fetch the byte at an absolute position, `none` out of range. -/
def byteAt (ins : List Nat) (i : Int) : Option Nat :=
  if i < 0 then none else ins.get? i.toNat

/-- The argument slice `vm.stack[sp - argN : sp]` passed to a builtin.
A nil slot in the slice is surfaced as `none` (a Go builtin would
receive a nil interface; no compiled program the claims touch produces
one). -/
def collectStackArgs (stack : Nat → Option Object) (start count : Nat) :
    Option (List Object) :=
  (List.range count).mapM (fun i => stack (start + i))

/-- One iteration of `Run`: increment the frame's ip, fetch, dispatch.
A byte that is no opcode falls through the Go switch and continues. -/
def vmStep (vm : VM) : StepOut :=
  match vm.frames with
  | [] => .crash
  | f :: restFrames =>
    if f.ip < (f.closureLam.instructions.length : Int) - 1 then
      let ip := f.ip + 1
      let f1 : FrameV := { f with ip := ip }
      let vm1 : VM := { vm with frames := f1 :: restFrames }
      let ins := f1.closureLam.instructions
      match byteAt ins ip with
      | none => .crash
      | some opByte =>
        if opByte = 0 then
          -- OpConstant
          match byteAt ins (ip + 1), byteAt ins (ip + 2) with
          | some b1, some b2 =>
            let constIndex := 256 * b1 + b2
            let f2 : FrameV := { f1 with ip := ip + 2 }
            let vm2 : VM := { vm1 with frames := f2 :: restFrames }
            match vm2.constants.get? constIndex with
            | none => .crash
            | some c =>
              match vm2.pushO (some c) with
              | .error m => .fail m
              | .ok vm3 => .next vm3
          | _, _ => .crash
        else if opByte = 1 then
          -- OpPop
          match vm1.popO with
          | none => .crash
          | some (_, vm2) => .next vm2
        else if opByte = 2 then
          -- OpTrue
          match vm1.pushO (some (.boolean true)) with
          | .error m => .fail m
          | .ok vm2 => .next vm2
        else if opByte = 3 then
          -- OpFalse
          match vm1.pushO (some (.boolean false)) with
          | .error m => .fail m
          | .ok vm2 => .next vm2
        else if opByte = 4 then
          -- OpJumpWhenFalse
          match byteAt ins (ip + 1), byteAt ins (ip + 2) with
          | some b1, some b2 =>
            let pos : Int := 256 * b1 + b2
            let f2 : FrameV := { f1 with ip := ip + 2 }
            let vm2 : VM := { vm1 with frames := f2 :: restFrames }
            match vm2.popO with
            | none => .crash
            | some (condition, vm3) =>
              if isTruthyOpt condition then .next vm3
              else
                match vm3.frames with
                | [] => .crash
                | f3 :: rest3 => .next { vm3 with frames := { f3 with ip := pos - 1 } :: rest3 }
          | _, _ => .crash
        else if opByte = 5 then
          -- OpJump
          match byteAt ins (ip + 1), byteAt ins (ip + 2) with
          | some b1, some b2 =>
            let pos : Int := 256 * b1 + b2
            .next { vm1 with frames := { f1 with ip := pos - 1 } :: restFrames }
          | _, _ => .crash
        else if opByte = 6 then
          -- OpNull
          match vm1.pushO (some .null) with
          | .error m => .fail m
          | .ok vm2 => .next vm2
        else if opByte = 7 then
          -- OpGetGlobal
          match byteAt ins (ip + 1), byteAt ins (ip + 2) with
          | some b1, some b2 =>
            let index := 256 * b1 + b2
            let f2 : FrameV := { f1 with ip := ip + 2 }
            let vm2 : VM := { vm1 with frames := f2 :: restFrames }
            match vm2.pushO (vm2.globals index) with
            | .error m => .fail m
            | .ok vm3 => .next vm3
          | _, _ => .crash
        else if opByte = 8 then
          -- OpSetGlobal
          match byteAt ins (ip + 1), byteAt ins (ip + 2) with
          | some b1, some b2 =>
            let index := 256 * b1 + b2
            let f2 : FrameV := { f1 with ip := ip + 2 }
            let vm2 : VM := { vm1 with frames := f2 :: restFrames }
            if vm2.sp = 0 then .crash
            else
              let top := vm2.stack (vm2.sp - 1)
              .next { vm2 with globals := fun i => if i = index then top else vm2.globals i }
          | _, _ => .crash
        else if opByte = 9 then
          -- OpCall
          match byteAt ins (ip + 1) with
          | none => .crash
          | some argCount =>
            let f2 : FrameV := { f1 with ip := ip + 1 }
            let vm2 : VM := { vm1 with frames := f2 :: restFrames }
            if vm2.sp < argCount + 1 then .crash
            else
              match vm2.stack (vm2.sp - argCount - 1) with
              | some (.closure lam free) =>
                if argCount ≠ lam.parameterCount then
                  .fail ("wrong number of arguments: expected="
                    ++ toString lam.parameterCount ++ " got=" ++ toString argCount)
                else if MaxFrames ≤ vm2.frames.length then .crash
                else
                  let frame := newFrame lam free (vm2.sp - argCount)
                  .next { vm2 with
                    frames := frame :: vm2.frames
                    sp := frame.basePointer + lam.localsCount }
              | some (.functionObj name) =>
                match collectStackArgs vm2.stack (vm2.sp - argCount) argCount with
                | none => .crash
                | some args =>
                  match applyBuiltin name args with
                  | none => .crash
                  | some result =>
                    match result with
                    | none => .crash
                    | some result =>
                      if isError result then
                        match result with
                        | .error m => .fail m
                        | _ => .crash
                      else
                        let vm3 : VM := { vm2 with sp := vm2.sp - argCount - 1 }
                        match vm3.pushO (some result) with
                        | .error m => .fail m
                        | .ok vm4 => .next vm4
              | _ => .fail "calling non-function"
        else if opByte = 10 then
          -- OpReturn
          match vm1.popO with
          | none => .crash
          | some (returnValue, vm2) =>
            match vm2.frames with
            | [] => .crash
            | frame :: outerFrames =>
              if frame.basePointer = 0 then .crash
              else
                let vm3 : VM := { vm2 with
                  frames := outerFrames
                  sp := frame.basePointer - 1 }
                match vm3.pushO returnValue with
                | .error m => .fail m
                | .ok vm4 => .next vm4
        else if opByte = 11 then
          -- OpGetLocal
          match byteAt ins (ip + 1) with
          | none => .crash
          | some index =>
            let f2 : FrameV := { f1 with ip := ip + 1 }
            let vm2 : VM := { vm1 with frames := f2 :: restFrames }
            if StackSize ≤ f2.basePointer + index then .crash
            else
              match vm2.pushO (vm2.stack (f2.basePointer + index)) with
              | .error m => .fail m
              | .ok vm3 => .next vm3
        else if opByte = 12 then
          -- OpSetLocal
          match byteAt ins (ip + 1) with
          | none => .crash
          | some index =>
            let f2 : FrameV := { f1 with ip := ip + 1 }
            let vm2 : VM := { vm1 with frames := f2 :: restFrames }
            if vm2.sp = 0 then .crash
            else if StackSize ≤ f2.basePointer + index then .crash
            else
              let top := vm2.stack (vm2.sp - 1)
              .next { vm2 with
                stack := fun i => if i = f2.basePointer + index then top else vm2.stack i }
        else if opByte = 13 then
          -- OpEmptyList
          match vm1.pushO (some (.list [])) with
          | .error m => .fail m
          | .ok vm2 => .next vm2
        else if opByte = 14 then
          -- OpGetBuiltin
          match byteAt ins (ip + 1) with
          | none => .crash
          | some index =>
            let f2 : FrameV := { f1 with ip := ip + 1 }
            let vm2 : VM := { vm1 with frames := f2 :: restFrames }
            match builtinNames.get? index with
            | none => .crash
            | some name =>
              match vm2.pushO (some (.functionObj name)) with
              | .error m => .fail m
              | .ok vm3 => .next vm3
        else if opByte = 15 then
          -- OpClosure
          match byteAt ins (ip + 1), byteAt ins (ip + 2), byteAt ins (ip + 3) with
          | some b1, some b2, some b3 =>
            let index := 256 * b1 + b2
            let freeCount := b3
            let f2 : FrameV := { f1 with ip := ip + 3 }
            let vm2 : VM := { vm1 with frames := f2 :: restFrames }
            match vm2.constants.get? index with
            | none => .crash
            | some constant =>
              match constant with
              | .compiledLambda lam =>
                if vm2.sp < freeCount then .crash
                else
                  let freeVariables :=
                    (List.range freeCount).map (fun i => vm2.stack (vm2.sp - freeCount + i))
                  let vm3 : VM := { vm2 with sp := vm2.sp - freeCount }
                  match vm3.pushO (some (.closure lam freeVariables)) with
                  | .error m => .fail m
                  | .ok vm4 => .next vm4
              | other => .fail ("object not lambda: " ++ inspect other)
          | _, _, _ => .crash
        else if opByte = 16 then
          -- OpGetFree
          match byteAt ins (ip + 1) with
          | none => .crash
          | some index =>
            let f2 : FrameV := { f1 with ip := ip + 1 }
            let vm2 : VM := { vm1 with frames := f2 :: restFrames }
            match f2.closureFree.get? index with
            | none => .crash
            | some v =>
              match vm2.pushO v with
              | .error m => .fail m
              | .ok vm3 => .next vm3
        else if opByte = 17 then
          -- OpCurrentClosure
          match vm1.pushO (some (.closure f1.closureLam f1.closureFree)) with
          | .error m => .fail m
          | .ok vm2 => .next vm2
        else
          .next vm1
    else .halt vm

/-- Result of `Run`: normal completion, a VM error, a panic, or the
embedding's fuel bound (the loop would have continued). -/
inductive RunResult where
  | ok (vm : VM)
  | err (msg : String)
  | crash
  | outOfFuel

/-- Iterate `vmStep` (the Run loop) up to `fuel` iterations. -/
def runFuel : Nat → VM → RunResult
  | 0, _ => .outOfFuel
  | fuel + 1, vm =>
    match vmStep vm with
    | .halt v => .ok v
    | .fail m => .err m
    | .crash => .crash
    | .next v => runFuel fuel v

/-! ### Claim theorems -/

/-- Claim C9: `first` and `last` on an empty List neither return an
element nor an Error: they index position 0 (resp. length-1) of the
empty slice without a bounds check, a host runtime panic (`none` in the
embedding) — in contrast to `pop!`, which checks and returns an Error. -/
theorem claim_C9_first_last_empty_panic :
    goFirst [.list []] = none
      ∧ goLast [.list []] = none
      ∧ goPop [.list []] = some (.error "attemped to pop from empty list") :=
  ⟨rfl, rfl, rfl⟩

/-- Claim C10: the wrong-argument-count and bad-key Error objects that
`get` and `set` construct are discarded, never returned: both builtins
behave identically on any argument count once `args[0]`/`args[1]`
(/`args[2]`) exist (extra arguments are ignored, the misuse Error is not
returned), missing arguments are an index panic rather than an Error
return, and an unhashable key on a dictionary is a nil-interface panic
rather than the constructed BadKeyError. -/
theorem claim_C10_get_set_discard_misuse_errors :
    (∀ d k rest, goGet (d :: k :: rest) = goGet [d, k])
      ∧ goGet [] = none
      ∧ (∀ d, goGet [d] = none)
      ∧ (∀ values k rest, hashKeyOf k = none →
          goGet (.dictionary values :: k :: rest) = none)
      ∧ (∀ d k v rest, goSet (d :: k :: v :: rest) = goSet [d, k, v])
      ∧ goSet [] = none
      ∧ (∀ d, goSet [d] = none)
      ∧ (∀ d k, goSet [d, k] = none)
      ∧ (∀ values k v rest, hashKeyOf k = none →
          goSet (.dictionary values :: k :: v :: rest) = none) := by
  refine ⟨fun d k rest => rfl, rfl, fun d => rfl, ?_, fun d k v rest => rfl, rfl,
    fun d => rfl, fun d k => rfl, ?_⟩
  · intro values k rest h
    simp only [goGet, typeOf, List.head?, List.drop, h]
    rfl
  · intro values k v rest h
    simp only [goSet, typeOf, List.head?, List.drop, h]
    rfl

/-- Witness for C10's hypothesised conjuncts: a list is not hashable. -/
theorem claim_C10_witness :
    goGet [.dictionary [], .list [], .null] = none
      ∧ goSet [.dictionary [], .list [], .null, .null] = none :=
  ⟨claim_C10_get_set_discard_misuse_errors.2.2.2.1 [] (.list []) [.null] rfl,
   (claim_C10_get_set_discard_misuse_errors.2.2.2.2.2.2.2.2) [] (.list []) .null [.null] rfl⟩

/-- Claim C8 counterexample: with the second (compiled-pipeline) symbol
table variant, a second `Define` of the same name does not preserve the
first definition: it returns a fresh symbol at index 1, the store now
holds that fresh symbol, and the definition count was consumed (2). -/
theorem claim_C8_counterexample :
    ((newSymbolTable.define "a").2.define "a").1 = ⟨"a", .global, 1⟩
      ∧ (⟨"a", .global, 1⟩ : SymbolV) ≠ ⟨"a", .global, 0⟩
      ∧ storeLookup (((newSymbolTable.define "a").2.define "a").2).store "a"
          = some ⟨"a", .global, 1⟩
      ∧ (((newSymbolTable.define "a").2.define "a").2).count = 2 :=
  ⟨rfl, by decide, rfl, rfl⟩

/-- Claim C8 (amended): redefinition behaviour differs between the two
source variants.  The first variant's `Define` preserves the first
definition — it returns the stored symbol, leaves the table unchanged
and consumes no index — while the second variant's `Define` shadows:
it overwrites the store with a fresh Global/Local symbol at the current
count and increments the count. -/
theorem claim_C8_define_redefinition :
    (∀ (st : SymbolTableV1) (s : String) (sym : SymbolV),
      storeLookup st.store s = some sym →
        (st.define s).1 = sym ∧ (st.define s).2 = st)
      ∧ (∀ (st : SymbolTable) (s : String),
          ((st.define s).1).index = st.count
            ∧ ((st.define s).2).count = st.count + 1
            ∧ storeLookup ((st.define s).2).store s = some ((st.define s).1)) := by
  constructor
  · intro st s sym h
    obtain ⟨store, count, outer⟩ := st
    simp only [SymbolTableV1.store] at h
    simp [SymbolTableV1.define, h]
  · intro st s
    obtain ⟨store, count, outer, free⟩ := st
    refine ⟨?_, ?_, ?_⟩
    · cases outer <;> rfl
    · cases outer <;> rfl
    · cases outer <;> exact storeLookup_update _ _ _

/-- Witness for C8's amended theorem: the first variant returns the
stored symbol untouched; the second variant's shadowing at a concrete
table. -/
theorem claim_C8_witness :
    ((SymbolTableV1.mk [("a", ⟨"a", .global, 0⟩)] 1 none).define "a").1
        = ⟨"a", .global, 0⟩
      ∧ ((newSymbolTable.define "x").1).index = newSymbolTable.count :=
  ⟨(claim_C8_define_redefinition.1
      (SymbolTableV1.mk [("a", ⟨"a", .global, 0⟩)] 1 none) "a" ⟨"a", .global, 0⟩ rfl).1,
   (claim_C8_define_redefinition.2 newSymbolTable "x").1⟩

/-- Claim C2: when `Resolve` misses locally and the enclosing table
returns a symbol whose scope is neither Global nor Builtin, the original
symbol is appended to this table's FreeSymbols and a Free symbol at
index `len(FreeSymbols) - 1` is stored and returned; because that Free
symbol is stored locally, a further resolution of the same name returns
it from the store without touching FreeSymbols again. -/
theorem claim_C2_resolve_free_promotion_memoized
    (store : List (String × SymbolV)) (count : Nat) (out : SymbolTable)
    (freeSyms : List SymbolV) (s : String) (sym : SymbolV) (out' : SymbolTable)
    (hmiss : storeLookup store s = none)
    (houter : out.resolve s = (some sym, out'))
    (hname : sym.name = s)
    (hb : sym.scope ≠ SymbolScope.builtin)
    (hg : sym.scope ≠ SymbolScope.global) :
    (SymbolTable.mk store count (some out) freeSyms).resolve s
        = (some ⟨s, SymbolScope.free, freeSyms.length⟩,
           SymbolTable.mk (storeUpdate store s ⟨s, SymbolScope.free, freeSyms.length⟩)
             count (some out') (freeSyms ++ [sym]))
      ∧ (freeSyms ++ [sym]).length - 1 = freeSyms.length
      ∧ (SymbolTable.mk (storeUpdate store s ⟨s, SymbolScope.free, freeSyms.length⟩)
           count (some out') (freeSyms ++ [sym])).resolve s
          = (some ⟨s, SymbolScope.free, freeSyms.length⟩,
             SymbolTable.mk (storeUpdate store s ⟨s, SymbolScope.free, freeSyms.length⟩)
               count (some out') (freeSyms ++ [sym])) := by
  have promote : resolveOuterResult store count freeSyms (some sym, out')
      = (some ⟨sym.name, SymbolScope.free, freeSyms.length⟩,
         SymbolTable.mk
           (storeUpdate store sym.name ⟨sym.name, SymbolScope.free, freeSyms.length⟩)
           count (some out') (freeSyms ++ [sym])) := by
    simp only [resolveOuterResult]
    rw [if_pos ⟨hb, hg⟩]
    simp only [SymbolTable.defineFree]
    simp
  refine ⟨?_, by simp, ?_⟩
  · unfold SymbolTable.resolve
    rw [hmiss]
    show resolveOuterResult store count freeSyms (out.resolve s) = _
    rw [houter, promote, hname]
  · unfold SymbolTable.resolve
    rw [storeLookup_update]

/-- Witness for C2: a two-level nesting where the inner table resolves a
local `x` of the enclosing lambda scope. -/
theorem claim_C2_witness :
    (SymbolTable.mk [] 0
        (some (.mk [("x", ⟨"x", .local, 0⟩)] 1 none [])) []).resolve "x"
      = (some ⟨"x", SymbolScope.free, 0⟩,
         SymbolTable.mk [("x", ⟨"x", SymbolScope.free, 0⟩)] 0
           (some (.mk [("x", ⟨"x", .local, 0⟩)] 1 none [])) [⟨"x", .local, 0⟩]) :=
  (claim_C2_resolve_free_promotion_memoized [] 0
    (.mk [("x", ⟨"x", .local, 0⟩)] 1 none []) [] "x" ⟨"x", .local, 0⟩
    (.mk [("x", ⟨"x", .local, 0⟩)] 1 none [])
    rfl rfl rfl (by decide) (by decide)).1

lemma byteAt_bounds {ins : List Nat} {i : Int} {b : Nat}
    (h : byteAt ins i = some b) :
    0 ≤ i ∧ i.toNat < ins.length ∧ ins.get? i.toNat = some b := by
  unfold byteAt at h
  split at h
  · exact absurd h (by simp)
  · next hneg =>
    push_neg at hneg
    exact ⟨hneg, List.get?_eq_some.mp h |>.1, h⟩

lemma loop_condition_of_byteAt {lam : CompiledLambdaV} {ip0 : Int} {b : Nat}
    (h : byteAt lam.instructions (ip0 + 1) = some b) :
    ip0 < (lam.instructions.length : Int) - 1 := by
  obtain ⟨h0, hlt, _⟩ := byteAt_bounds h
  have : ((ip0 + 1).toNat : Int) = ip0 + 1 := Int.toNat_of_nonneg h0
  have : (ip0 + 1 : Int) < (lam.instructions.length : Int) := by
    omega
  omega

/-- Claim C4: a value is falsy iff it is the interned False singleton or
Null; everything else — Error values included — is truthy.  Builtin
`not` on a non-Error argument returns true exactly for False/Null, and
`OpJumpWhenFalse` moves the instruction pointer to the target exactly
when the popped condition is False or Null (and otherwise past the
operand). -/
theorem claim_C4_truthiness :
    (∀ o : Object, isTruthy o = false ↔ (o = .boolean false ∨ o = .null))
      ∧ (∀ o : Object, isError o = false →
          (goNot [o] = some (.boolean true) ↔ (o = .boolean false ∨ o = .null)))
      ∧ (∀ (C : List Object) (S : Nat → Option Object) (sp : Nat)
          (G : Nat → Option Object) (lam : CompiledLambdaV)
          (fr : List (Option Object)) (ip0 : Int) (bp : Nat)
          (rest : List FrameV) (b1 b2 : Nat) (cond : Object),
          byteAt lam.instructions (ip0 + 1) = some 4 →
          byteAt lam.instructions (ip0 + 2) = some b1 →
          byteAt lam.instructions (ip0 + 3) = some b2 →
          sp ≠ 0 →
          S (sp - 1) = some cond →
          vmStep ⟨C, S, sp, G, ⟨lam, fr, ip0, bp⟩ :: rest⟩
            = .next ⟨C, S, sp - 1, G,
                ⟨lam, fr,
                 if isTruthy cond then ip0 + 3 else (256 * b1 + b2 : Int) - 1,
                 bp⟩ :: rest⟩) := by
  refine ⟨?_, ?_, ?_⟩
  · intro o
    cases o with
    | boolean b => cases b <;> simp [isTruthy]
    | _ => simp [isTruthy]
  · intro o herr
    have hnot : goNot [o] = some (if evalTruthy o then .boolean false else .boolean true) := by
      simp [goNot, herr]
      split <;> rfl
    rw [hnot]
    cases o with
    | boolean b =>
      cases b <;> simp [evalTruthy]
    | null => simp [evalTruthy]
    | error m => exact absurd herr (by simp [isError])
    | _ => simp [evalTruthy]
  · intro C S sp G lam fr ip0 bp rest b1 b2 cond h4 hb1 hb2 hsp hS
    have hloop := loop_condition_of_byteAt h4
    unfold vmStep
    dsimp only
    rw [if_pos hloop]
    rw [h4]
    norm_num
    rw [show ip0 + 1 + 1 = ip0 + 2 from by ring, hb1,
      show ip0 + 1 + 2 = ip0 + 3 from by ring, hb2]
    simp only [VM.popO]
    rw [if_neg hsp]
    simp only [hS, isTruthyOpt]
    split <;> rfl

lemma collectNums_length :
    ∀ {args : List Object} {nums : List GoFloat},
      collectNums args = .ok nums → nums.length = args.length := by
  intro args
  induction args with
  | nil => intro nums h; cases h; rfl
  | cons a rest ih =>
    intro nums h
    cases a <;> simp only [collectNums] at h
    all_goals first
      | (cases h)
      | (cases hrec : collectNums rest with
         | error e => rw [hrec] at h; cases h
         | ok ns =>
           rw [hrec] at h
           cases h
           simp [ih hrec])

lemma divLoop_error_iff :
    ∀ (l : List GoFloat) (r : GoFloat),
      divLoop r l = .error (.error "Attempted to divide by 0")
        ↔ l.any goFloatIsZero = true := by
  intro l
  induction l with
  | nil =>
    intro r
    simp [divLoop]
  | cons n rest ih =>
    intro r
    by_cases h : goFloatIsZero n = true
    · simp [divLoop, h]
    · simp only [divLoop]
      rw [if_neg h]
      rw [ih (fdiv r n)]
      simp [List.any_cons, h]

lemma divLoop_ok_result (l : List GoFloat) (r r' : GoFloat)
    (h : divLoop r l = .ok r') :
    l.any goFloatIsZero = false := by
  by_contra hc
  rw [Bool.not_eq_false] at hc
  rw [← divLoop_error_iff l r] at hc
  rw [h] at hc
  cases hc

/-- Claim C6 counterexample: the one-argument reciprocal applied to 0
returns the Float +Inf, not an Error value. -/
theorem claim_C6_counterexample :
    goDiv [.integer 0] = some (.float .inf)
      ∧ isError (.float .inf) = false := ⟨rfl, rfl⟩

/-- Claim C6 (amended): with numeric arguments, a multi-argument `/`
returns the Error "Attempted to divide by 0" exactly when a zero divisor
occurs among `nums[1:]`; with no zero divisor it returns the left fold
of float64 divisions, demoted to an Integer when exactly integral.  The
one-argument form is the float64 reciprocal `1 / nums[0]` with no zero
check (so `(/ 0)` is the Float +Inf, not an Error). -/
theorem claim_C6_division (args : List Object) (nums : List GoFloat)
    (hc : collectNums args = .ok nums) :
    (2 ≤ nums.length →
      ((goDiv args = some (.error "Attempted to divide by 0")
          ↔ nums.tail.any goFloatIsZero = true)
        ∧ (∀ r, divLoop (nums.headD .nan) nums.tail = .ok r →
            goDiv args = some (if isIntGo r then .integer (f64ToInt64 r) else .float r))))
      ∧ (∀ n, nums = [n] → goDiv args = some (.float (fdiv (.finite ⟨1, 1⟩) n))) := by
  have hlen := collectNums_length hc
  constructor
  · intro h2
    have hargs : args.length ≠ 0 := by omega
    cases nums with
    | nil => simp at h2
    | cons n0 rest =>
      simp only [List.tail_cons, List.headD]
      have hgoDiv : goDiv args =
          (match divLoop n0 rest with
           | .error e => some e
           | .ok result =>
             if isIntGo result then some (.integer (f64ToInt64 result))
             else some (.float result)) := by
        unfold goDiv
        rw [if_neg hargs, hc]
        have hne1 : (n0 :: rest).length ≠ 1 := by
          simp only [List.length_cons]
          simp only [List.length_cons] at h2
          omega
        simp only [List.head?, List.tail_cons, if_neg hne1]
      rw [hgoDiv]
      constructor
      · constructor
        · intro h
          cases hdl : divLoop n0 rest with
          | error e =>
            rw [hdl] at h
            cases h
            rw [← divLoop_error_iff rest n0]
            exact hdl
          | ok r =>
            rw [hdl] at h
            by_cases hint : isIntGo r = true <;> simp [hint] at h
        · intro h
          have hd := (divLoop_error_iff rest n0).mpr h
          rw [hd]
      · intro r h
        rw [h]
        by_cases hint : isIntGo r = true <;> simp [hint]
  · intro n hn
    subst hn
    have hargs : args.length ≠ 0 := by simp at hlen; omega
    unfold goDiv
    rw [if_neg hargs, hc]
    simp [List.head?]

/-- Witness for C6: a zero divisor errors; the reciprocal form returns
the float64 reciprocal. -/
theorem claim_C6_witness :
    goDiv [.integer 1, .integer 0] = some (.error "Attempted to divide by 0")
      ∧ goDiv [.integer 5] = some (.float (fdiv (.finite ⟨1, 1⟩) (i64ToF 5))) :=
  ⟨(((claim_C6_division [.integer 1, .integer 0] [i64ToF 1, i64ToF 0] rfl).1
      (by decide)).1).mpr (by decide),
   (claim_C6_division [.integer 5] [i64ToF 5] rfl).2 (i64ToF 5) rfl⟩

/-- The partial sums of an integer argument list stay strictly below
`2 ^ 53` in magnitude (so every float64 conversion and addition in the
`+` fold is exact), starting from accumulator `acc`. -/
def BoundedIntArgs : Int → List Int → Prop
  | _, [] => True
  | acc, z :: zs =>
    |z| < 2 ^ 53 ∧ |acc + z| < 2 ^ 53 ∧ BoundedIntArgs (acc + z) zs

instance instDecBoundedIntArgs : ∀ acc zs, Decidable (BoundedIntArgs acc zs)
  | _, [] => .isTrue trivial
  | acc, z :: zs =>
    have : Decidable (BoundedIntArgs (acc + z) zs) := instDecBoundedIntArgs (acc + z) zs
    inferInstanceAs (Decidable (_ ∧ _ ∧ _))

lemma sumLoop_intArgs :
    ∀ (zs : List Int) (y : Frac) (acc : Int), y.Pos → y.val = (acc : ℚ) →
      |acc| < 2 ^ 53 → BoundedIntArgs acc zs →
      ∃ y' : Frac, sumLoop (.finite y) (zs.map Object.integer) = .ok (.finite y')
        ∧ y'.Pos ∧ y'.val = ((acc + zs.sum : Int) : ℚ) ∧ |acc + zs.sum| < 2 ^ 53 := by
  intro zs
  induction zs with
  | nil =>
    intro y acc hpos hval hacc _
    exact ⟨y, rfl, hpos, by simpa using hval, by simpa using hacc⟩
  | cons z zs ih =>
    intro y acc hpos hval hacc hb
    obtain ⟨hz, hzacc, hrest⟩ := hb
    obtain ⟨w, hw, hwpos, hwval⟩ := roundQ_exact
      (q := ⟨z, 1⟩) (by norm_num [Frac.Pos]) (by norm_num [Frac.val]) hz
    have hadd_pos : (fracAdd y w).Pos := fracAdd_pos hpos hwpos
    have hadd_val : (fracAdd y w).val = ((acc + z : Int) : ℚ) := by
      rw [fracAdd_val hpos hwpos, hval, hwval]
      push_cast
      ring
    obtain ⟨u, hu, hupos, huval⟩ := roundQ_exact hadd_pos hadd_val hzacc
    obtain ⟨y', hy', h1, h2, h3⟩ := ih u (acc + z) hupos huval hzacc hrest
    refine ⟨y', ?_, h1, ?_, ?_⟩
    · show sumLoop (fadd (.finite y) (i64ToF z)) (zs.map Object.integer) = _
      unfold i64ToF
      rw [hw]
      show sumLoop (roundQ (fracAdd y w)) (zs.map Object.integer) = _
      rw [hu]
      exact hy'
    · rw [h2]
      have hsum : acc + z + zs.sum = acc + (z :: zs).sum := by
        simp only [List.sum_cons]
        ring
      exact_mod_cast hsum
    · have : acc + (z :: zs).sum = acc + z + zs.sum := by
        simp only [List.sum_cons]
        ring
      rw [this]
      exact h3

/-- Claim C7 counterexample: the sum is accumulated in float64, so an
Integer argument above `2 ^ 53` is already rounded by the conversion:
`(+ 9007199254740993)` yields 9007199254740992, not the exact
(int64-representable) sum 9007199254740993. -/
theorem claim_C7_counterexample :
    goPlus [.integer 9007199254740993] = some (.integer 9007199254740992)
      ∧ Object.integer 9007199254740992 ≠ Object.integer 9007199254740993 := by
  constructor
  · rfl
  · intro h
    injection h with h'
    exact absurd h' (by decide)

/-- Claim C7 (amended): for Integer arguments whose values and partial
sums all stay below `2 ^ 53` in magnitude (the range on which float64
conversion and addition are exact), `+` returns the Integer equal to the
exact sum; the empty application returns Integer 0. -/
theorem claim_C7_plus_exact_sum (zs : List Int) (hb : BoundedIntArgs 0 zs) :
    goPlus (zs.map Object.integer) = some (.integer zs.sum) := by
  obtain ⟨y', hy', hpos, hval, hbound⟩ :=
    sumLoop_intArgs zs ⟨0, 1⟩ 0 (by norm_num [Frac.Pos]) (by norm_num [Frac.val])
      (by norm_num) hb
  rw [zero_add] at hval hbound
  obtain ⟨hint, hconv⟩ := isIntGo_intValued hpos hval hbound
  unfold goPlus
  rw [hy']
  show (if isIntGo (GoFloat.finite y') = true
        then some (Object.integer (f64ToInt64 (GoFloat.finite y')))
        else some (Object.float (GoFloat.finite y'))) = some (Object.integer zs.sum)
  rw [if_pos hint, hconv]

/-- Witness for C7's amended theorem: `(+ 3 4)` is Integer 7. -/
theorem claim_C7_witness :
    goPlus [.integer 3, .integer 4] = some (.integer 7) :=
  claim_C7_plus_exact_sum [3, 4] (by decide)

/-- The bytes `getSymbol` emits for one symbol. -/
def symGetterBytes (sym : SymbolV) : List Nat :=
  match sym.scope with
  | .global => Make .opGetGlobal [sym.index]
  | .local => Make .opGetLocal [sym.index]
  | .builtin => Make .opGetBuiltin [sym.index]
  | .free => Make .opGetFree [sym.index]
  | .function => Make .opCurrentClosure []

/-- The bytes of the free-symbol getter sequence, in order. -/
def gettersBytes : List SymbolV → List Nat
  | [] => []
  | s :: rest => symGetterBytes s ++ gettersBytes rest

lemma emit_spec (c : Compiler) (op : Opcode) (operands : List Nat) :
    ((c.emit op operands).1).currentInstructions
        = c.currentInstructions ++ Make op operands
      ∧ ((c.emit op operands).1).scopes.tail = c.scopes.tail
      ∧ ((c.emit op operands).1).constants = c.constants
      ∧ ((c.emit op operands).1).symbolTable = c.symbolTable := by
  obtain ⟨constants, symbolTable, scopes⟩ := c
  cases scopes <;>
    simp [Compiler.emit, Compiler.addInstruction, Compiler.setLastInstruction,
      Compiler.withCurrentScope, Compiler.currentInstructions, Compiler.currentScope]

lemma getSymbol_spec (c : Compiler) (sym : SymbolV) :
    (c.getSymbol sym).currentInstructions
        = c.currentInstructions ++ symGetterBytes sym
      ∧ (c.getSymbol sym).scopes.tail = c.scopes.tail
      ∧ (c.getSymbol sym).constants = c.constants
      ∧ (c.getSymbol sym).symbolTable = c.symbolTable := by
  unfold Compiler.getSymbol symGetterBytes
  cases sym.scope <;> exact emit_spec c _ _

lemma emitGetSymbols_spec :
    ∀ (fs : List SymbolV) (c : Compiler),
      (emitGetSymbols c fs).currentInstructions
          = c.currentInstructions ++ gettersBytes fs
        ∧ (emitGetSymbols c fs).scopes.tail = c.scopes.tail
        ∧ (emitGetSymbols c fs).constants = c.constants := by
  intro fs
  induction fs with
  | nil => intro c; simp [emitGetSymbols, gettersBytes]
  | cons s rest ih =>
    intro c
    obtain ⟨h1, h2, h3, _⟩ := getSymbol_spec c s
    obtain ⟨ih1, ih2, ih3⟩ := ih (c.getSymbol s)
    refine ⟨?_, ?_, ?_⟩
    · rw [show emitGetSymbols c (s :: rest) = emitGetSymbols (c.getSymbol s) rest from rfl,
        ih1, h1, gettersBytes]
      simp [List.append_assoc]
    · rw [show emitGetSymbols c (s :: rest) = emitGetSymbols (c.getSymbol s) rest from rfl,
        ih2, h2]
    · rw [show emitGetSymbols c (s :: rest) = emitGetSymbols (c.getSymbol s) rest from rfl,
        ih3, h3]

lemma replaceInstruction_spec (c : Compiler) (pos : Nat) (bs : List Nat) :
    (c.replaceInstruction pos bs).scopes.tail = c.scopes.tail
      ∧ (c.replaceInstruction pos bs).constants = c.constants
      ∧ (c.replaceInstruction pos bs).symbolTable = c.symbolTable := by
  obtain ⟨constants, symbolTable, scopes⟩ := c
  cases scopes <;>
    simp [Compiler.replaceInstruction, Compiler.withCurrentScope]

lemma changeOperand_spec (c : Compiler) (opPos operand : Nat) :
    (c.changeOperand opPos operand).scopes.tail = c.scopes.tail
      ∧ (c.changeOperand opPos operand).constants = c.constants
      ∧ (c.changeOperand opPos operand).symbolTable = c.symbolTable := by
  unfold Compiler.changeOperand
  cases opcodeOfByte (c.currentInstructions.getD opPos 0) <;>
    exact replaceInstruction_spec c _ _


lemma defineParams_spec :
    ∀ (params : List Expression) (c c' : Compiler),
      defineParams params c = .ok c' → c'.scopes = c.scopes := by
  intro params
  induction params with
  | nil => intro c c' h; cases h; rfl
  | cons p rest ih =>
    intro c c' h
    cases p with
    | identifier lit =>
      simp only [defineParams] at h
      exact ih { c with symbolTable := (c.symbolTable.define lit).2 } c' h
    | program es => exact Except.noConfusion h
    | integerLit v l => exact Except.noConfusion h
    | floatLit v l => exact Except.noConfusion h
    | stringLit v l => exact Except.noConfusion h
    | sexp f a nm => exact Except.noConfusion h

lemma except_bind_ok {e a b : Type} {x : Except e a} {f : a → Except e b} {r : b}
    (h : x >>= f = .ok r) : ∃ v, x = .ok v ∧ f v = .ok r := by
  cases x with
  | error m => exact Except.noConfusion h
  | ok v => exact ⟨v, rfl, h⟩

/-- Compilation only touches the scope the task works in: every task
leaves the scopes below the active one untouched, and the `lambdaBody`
stage leaves exactly the caller's scope stack below its entered scope. -/
lemma compileAux_scopes :
    ∀ (fuel : Nat) (task : CompTask) (c c' : Compiler) (n : Nat),
      compileAux fuel task c = .ok (c', n) →
      c'.scopes.tail = (match task with
        | .lambdaBody _ _ => c.scopes
        | _ => c.scopes.tail) := by
  intro fuel
  induction fuel with
  | zero => intro task c c' n h; exact Except.noConfusion h
  | succ fuel ih =>
    intro task c c' n h
    cases task with
    | one e =>
      cases e with
      | program es =>
        replace h : compileAux fuel (.seqPop es) c = .ok (c', n) := h
        exact ih _ _ _ _ h
      | identifier lit =>
        simp only [compileAux] at h
        split at h
        · cases h; exact (emit_spec c _ _).2.1
        · split at h
          · cases h; exact (emit_spec c _ _).2.1
          · split at h
            · cases h; exact (emit_spec c _ _).2.1
            · split at h
              · exact Except.noConfusion h
              · cases h
                exact (getSymbol_spec _ _).2.1
      | integerLit v lit =>
        cases h
        exact (emit_spec _ _ _).2.1
      | floatLit v lit =>
        cases h
        exact (emit_spec _ _ _).2.1
      | stringLit v lit =>
        cases h
        exact (emit_spec _ _ _).2.1
      | sexp fn args name =>
        cases fn with
        | none =>
          cases h
          exact (emit_spec c _ _).2.1
        | some f =>
          simp only [compileAux] at h
          split at h
          · exact ih _ _ _ _ h
          · split at h
            · exact ih _ _ _ _ h
            · split at h
              · exact ih _ _ _ _ h
              · exact ih _ _ _ _ h
    | seqPop es =>
      cases es with
      | nil => cases h; rfl
      | cons e rest =>
        cases h1 : compileAux fuel (.one e) c with
        | error m =>
          replace h : (compileAux fuel (.one e) c >>= fun p =>
            compileAux fuel (.seqPop rest) ((p.1.emit .opPop []).1)) = .ok (c', n) := h
          rw [h1] at h
          exact Except.noConfusion h
        | ok p =>
          obtain ⟨c1, m1⟩ := p
          replace h : (compileAux fuel (.one e) c >>= fun p =>
            compileAux fuel (.seqPop rest) ((p.1.emit .opPop []).1)) = .ok (c', n) := h
          rw [h1] at h
          replace h : compileAux fuel (.seqPop rest) ((c1.emit .opPop []).1) = .ok (c', n) := h
          have t1 := ih _ _ _ _ h1
          have t2 := ih _ _ _ _ h
          simp only at t1 t2
          rw [t2, (emit_spec c1 .opPop []).2.1, t1]
    | seqPlain es =>
      cases es with
      | nil => cases h; rfl
      | cons e rest =>
        cases h1 : compileAux fuel (.one e) c with
        | error m =>
          replace h : (compileAux fuel (.one e) c >>= fun p =>
            compileAux fuel (.seqPlain rest) p.1) = .ok (c', n) := h
          rw [h1] at h
          exact Except.noConfusion h
        | ok p =>
          obtain ⟨c1, m1⟩ := p
          replace h : (compileAux fuel (.one e) c >>= fun p =>
            compileAux fuel (.seqPlain rest) p.1) = .ok (c', n) := h
          rw [h1] at h
          replace h : compileAux fuel (.seqPlain rest) c1 = .ok (c', n) := h
          have t1 := ih _ _ _ _ h1
          have t2 := ih _ _ _ _ h
          simp only at t1 t2
          rw [t2, t1]
    | callForm f args =>
      cases h1 : compileAux fuel (.one f) c with
      | error m =>
        replace h : (compileAux fuel (.one f) c >>= fun p =>
          compileAux fuel (.seqPlain args) p.1 >>= fun q =>
            .ok ((q.1.emit .opCall [args.length]).1, 0)) = .ok (c', n) := h
        rw [h1] at h
        exact Except.noConfusion h
      | ok p =>
        obtain ⟨c1, m1⟩ := p
        replace h : (compileAux fuel (.one f) c >>= fun p =>
          compileAux fuel (.seqPlain args) p.1 >>= fun q =>
            .ok ((q.1.emit .opCall [args.length]).1, 0)) = .ok (c', n) := h
        rw [h1] at h
        cases h2 : compileAux fuel (.seqPlain args) c1 with
        | error m =>
          replace h : (compileAux fuel (.seqPlain args) c1 >>= fun q =>
            (.ok ((q.1.emit .opCall [args.length]).1, 0) : Except String (Compiler × Nat)))
              = .ok (c', n) := h
          rw [h2] at h
          exact Except.noConfusion h
        | ok q =>
          obtain ⟨c2, m2⟩ := q
          replace h : (compileAux fuel (.seqPlain args) c1 >>= fun q =>
            (.ok ((q.1.emit .opCall [args.length]).1, 0) : Except String (Compiler × Nat)))
              = .ok (c', n) := h
          rw [h2] at h
          replace h : (.ok ((c2.emit .opCall [args.length]).1, 0)
            : Except String (Compiler × Nat)) = .ok (c', n) := h
          cases h
          have t1 := ih _ _ _ _ h1
          have t2 := ih _ _ _ _ h2
          simp only at t1 t2
          rw [(emit_spec c2 _ _).2.1, t2, t1]
    | ifForm args =>
      simp only [compileAux] at h
      split at h
      · exact Except.noConfusion h
      · split at h
        · obtain ⟨p1, h1, h⟩ := except_bind_ok h
          obtain ⟨c1, m1⟩ := p1
          obtain ⟨p2, h2, h⟩ := except_bind_ok h
          obtain ⟨c3, m2⟩ := p2
          have t1 := ih _ _ _ _ h1
          have t2 := ih _ _ _ _ h2
          simp only at t1 t2
          split at h
          · obtain ⟨c6, h3, h⟩ := except_bind_ok h
            cases h3
            cases h
            rw [(changeOperand_spec _ _ _).1, (emit_spec _ _ _).2.1,
              (changeOperand_spec _ _ _).1, (emit_spec _ _ _).2.1, t2,
              (emit_spec _ _ _).2.1, t1]
          · obtain ⟨p3, h4, h⟩ := except_bind_ok h
            obtain ⟨c7, m3⟩ := p3
            obtain ⟨y, h5, h⟩ := except_bind_ok h
            cases h5
            cases h
            have t3 := ih _ _ _ _ h4
            simp only at t3
            rw [(changeOperand_spec _ _ _).1, t3, (changeOperand_spec _ _ _).1,
              (emit_spec _ _ _).2.1, t2, (emit_spec _ _ _).2.1, t1]
        · exact Except.noConfusion h
    | defForm args =>
      simp only [compileAux] at h
      split at h
      · exact Except.noConfusion h
      · split at h
        · split at h
          · obtain ⟨p1, h1, h⟩ := except_bind_ok h
            obtain ⟨c2, m1⟩ := p1
            have t1 := ih _ _ _ _ h1
            simp only at t1
            split at h
            · cases h
              rw [(emit_spec _ _ _).2.1, t1]
            · cases h
              rw [(emit_spec _ _ _).2.1, t1]
          · exact Except.noConfusion h
        · exact Except.noConfusion h
    | lambdaBody args name =>
      simp only [compileAux] at h
      split at h
      · exact Except.noConfusion h
      · split at h
        · exact Except.noConfusion h
        · split at h
          · obtain ⟨c3, h1, h⟩ := except_bind_ok h
            have hps := defineParams_spec _ _ _ h1
            split at h
            · cases h
              rw [(emit_spec _ _ _).2.1, (emit_spec _ _ _).2.1, hps]
              split <;> rfl
            · obtain ⟨p2, h2, h⟩ := except_bind_ok h
              obtain ⟨c4, m2⟩ := p2
              cases h
              have t2 := ih _ _ _ _ h2
              simp only at t2
              rw [(replaceInstruction_spec _ _ _).1, t2, hps]
              split <;> rfl
          · exact Except.noConfusion h
    | lambdaForm args name =>
      obtain ⟨p1, h1, h⟩ := except_bind_ok h
      obtain ⟨cb, pc⟩ := p1
      cases h
      have t1 := ih _ _ _ _ h1
      simp only at t1
      rw [(emit_spec _ _ _).2.1]
      show ((emitGetSymbols cb.leaveScope.2 cb.symbolTable.freeSymbols).scopes).tail
        = c.scopes.tail
      rw [(emitGetSymbols_spec _ _).2.1]
      show (cb.scopes.tail).tail = c.scopes.tail
      rw [t1]

/-! ### Claims C1 and C3: closures in the compiler and the VM -/

/-- The argument list of the lambda expression `(lambda () 1)`. -/
def c1Args : List Expression := [.sexp none [] "", .integerLit 1 "1"]

/-- The compiler state after the body stage of `(lambda () 1)` from a
fresh compiler. -/
def c1Cb : Compiler :=
  match compileAux 10 (.lambdaBody c1Args "") compilerNew with
  | .ok (x, _) => x
  | .error _ => compilerNew

/-- The compiler state after the whole lambda lowering of
`(lambda () 1)` from a fresh compiler. -/
def c1C' : Compiler :=
  match compileAux 11 (.lambdaForm c1Args "") compilerNew with
  | .ok (x, _) => x
  | .error _ => compilerNew

/-- Claim C1: lowering a lambda appends, after the getter instructions
for the recorded free symbols (in order), a Closure instruction whose
free-count operand is exactly the length of the lambda scope's
FreeSymbols list; and the VM's OpClosure case builds a closure carrying
exactly `freeCount` captured values, read off the stack in order. -/
theorem claim_C1_closure_free_count
    (fuel : Nat) (args : List Expression) (name : String)
    (c cb c' : Compiler) (pc n : Nat)
    (hbody : compileAux fuel (.lambdaBody args name) c = .ok (cb, pc))
    (hlam : compileAux (fuel + 1) (.lambdaForm args name) c = .ok (c', n)) :
    c'.currentInstructions
        = c.currentInstructions
          ++ (gettersBytes cb.symbolTable.freeSymbols
              ++ Make .opClosure
                  [cb.constants.length, cb.symbolTable.freeSymbols.length])
    ∧ (∀ (C : List Object) (S : Nat → Option Object) (sp : Nat)
        (G : Nat → Option Object) (lam0 : CompiledLambdaV)
        (fr : List (Option Object)) (ip0 : Int) (bp : Nat)
        (rest : List FrameV) (b1 b2 fc : Nat) (lam : CompiledLambdaV),
        byteAt lam0.instructions (ip0 + 1) = some 15 →
        byteAt lam0.instructions (ip0 + 2) = some b1 →
        byteAt lam0.instructions (ip0 + 3) = some b2 →
        byteAt lam0.instructions (ip0 + 4) = some fc →
        C.get? (256 * b1 + b2) = some (.compiledLambda lam) →
        fc ≤ sp →
        sp - fc < StackSize →
        vmStep ⟨C, S, sp, G, ⟨lam0, fr, ip0, bp⟩ :: rest⟩
            = .next ⟨C,
                fun i => if i = sp - fc
                  then some (.closure lam
                    ((List.range fc).map (fun j => S (sp - fc + j))))
                  else S i,
                sp - fc + 1, G,
                ⟨lam0, fr, ip0 + 1 + 3, bp⟩ :: rest⟩
          ∧ ((List.range fc).map (fun j => S (sp - fc + j))).length = fc) := by
  constructor
  · obtain ⟨p, hb, h⟩ := except_bind_ok hlam
    rw [hbody] at hb
    injection hb with hb
    subst hb
    cases h
    have hsc := compileAux_scopes fuel (.lambdaBody args name) c cb pc hbody
    simp only at hsc
    have hcur : cb.leaveScope.2.currentInstructions = c.currentInstructions := by
      show ((cb.scopes.tail).headD freshScope).instructions
        = ((c.scopes).headD freshScope).instructions
      rw [hsc]
    have haddi :
        ((emitGetSymbols cb.leaveScope.2 cb.symbolTable.freeSymbols).addConstant
            (Object.compiledLambda ⟨cb.leaveScope.1, cb.symbolTable.count, pc⟩)).2
          = cb.constants.length := by
      show (emitGetSymbols cb.leaveScope.2 cb.symbolTable.freeSymbols).constants.length
        = cb.constants.length
      rw [(emitGetSymbols_spec cb.symbolTable.freeSymbols cb.leaveScope.2).2.2]
      rfl
    show (((emitGetSymbols cb.leaveScope.2 cb.symbolTable.freeSymbols).addConstant
        (Object.compiledLambda ⟨cb.leaveScope.1, cb.symbolTable.count, pc⟩)).1.emit
          Opcode.opClosure
          [((emitGetSymbols cb.leaveScope.2 cb.symbolTable.freeSymbols).addConstant
              (Object.compiledLambda ⟨cb.leaveScope.1, cb.symbolTable.count, pc⟩)).2,
            cb.symbolTable.freeSymbols.length]).1.currentInstructions
      = _
    rw [(emit_spec _ _ _).1, haddi]
    show (emitGetSymbols cb.leaveScope.2 cb.symbolTable.freeSymbols).currentInstructions
        ++ Make .opClosure [cb.constants.length, cb.symbolTable.freeSymbols.length]
      = _
    rw [(emitGetSymbols_spec cb.symbolTable.freeSymbols cb.leaveScope.2).1, hcur,
      List.append_assoc]
  · intro C S sp G lam0 fr ip0 bp rest b1 b2 fc lam h15 hb1 hb2 hb3 hconst hfc hsp
    have hloop := loop_condition_of_byteAt h15
    refine ⟨?_, by simp⟩
    unfold vmStep
    dsimp only
    rw [if_pos hloop, h15]
    norm_num
    rw [show ip0 + 1 + 1 = ip0 + 2 from by ring, hb1,
      show ip0 + 1 + 2 = ip0 + 3 from by ring, hb2,
      show ip0 + 1 + 3 = ip0 + 4 from by ring, hb3]
    dsimp only
    rw [List.get?_eq_getElem?] at hconst
    rw [hconst]
    dsimp only
    rw [if_neg (not_lt.mpr hfc)]
    simp only [VM.pushO]
    rw [if_neg (not_le.mpr hsp)]

theorem claim_C1_witness :
    c1C'.currentInstructions
      = compilerNew.currentInstructions
        ++ (gettersBytes c1Cb.symbolTable.freeSymbols
            ++ Make .opClosure
                [c1Cb.constants.length, c1Cb.symbolTable.freeSymbols.length]) :=
  (claim_C1_closure_free_count 10 c1Args "" compilerNew c1Cb c1C' 0 0 rfl rfl).1

/-- The lambda expression `(lambda () 1)` as parsed. -/
def lambdaZero : Expression :=
  .sexp (some (.identifier "lambda")) [.sexp none [] "", .integerLit 1 "1"] ""

/-- The program `((lambda () 1) 1)` as parsed. -/
def progC3 : Expression := .program [.sexp (some lambdaZero) [.integerLit 1 "1"] ""]

/-- Compiling and running `((lambda () 1) 1)` through the pipeline. -/
def runC3 : RunResult :=
  match compileExpr 20 progC3 compilerNew with
  | .ok c => runFuel 20 (vmNew c.bytecode)
  | .error _ => .crash

/-- Claim C3: executing OpCall on a Closure fails with exactly
`wrong number of arguments: expected=E got=G` iff the argument count
differs from the closure's parameter count; when equal it pushes a frame
with `basePointer = sp - argN` and sets `sp = basePointer + localsCount`.
The program `((lambda () 1) 1)` yields that VM error with E=0, G=1. -/
theorem claim_C3_opcall_closure_arity
    (C : List Object) (S : Nat → Option Object) (sp : Nat)
    (G : Nat → Option Object) (lam0 : CompiledLambdaV) (fr : List (Option Object))
    (ip0 : Int) (bp : Nat) (rest : List FrameV) (argN : Nat)
    (lam : CompiledLambdaV) (free : List (Option Object))
    (hop : byteAt lam0.instructions (ip0 + 1) = some 9)
    (harg : byteAt lam0.instructions (ip0 + 2) = some argN)
    (hsp : argN + 1 ≤ sp)
    (hcallee : S (sp - argN - 1) = some (.closure lam free))
    (hframes : rest.length + 1 < MaxFrames) :
    ((∃ m, vmStep ⟨C, S, sp, G, ⟨lam0, fr, ip0, bp⟩ :: rest⟩ = .fail m)
        ↔ argN ≠ lam.parameterCount)
    ∧ (argN ≠ lam.parameterCount →
        vmStep ⟨C, S, sp, G, ⟨lam0, fr, ip0, bp⟩ :: rest⟩
          = .fail ("wrong number of arguments: expected="
              ++ toString lam.parameterCount ++ " got=" ++ toString argN))
    ∧ (argN = lam.parameterCount →
        vmStep ⟨C, S, sp, G, ⟨lam0, fr, ip0, bp⟩ :: rest⟩
          = .next ⟨C, S, sp - argN + lam.localsCount, G,
              ⟨lam, free, -1, sp - argN⟩ :: ⟨lam0, fr, ip0 + 1 + 1, bp⟩ :: rest⟩)
    ∧ runC3 = .err "wrong number of arguments: expected=0 got=1" := by
  have hloop := loop_condition_of_byteAt hop
  have hmain : vmStep ⟨C, S, sp, G, ⟨lam0, fr, ip0, bp⟩ :: rest⟩
      = if argN ≠ lam.parameterCount
        then .fail ("wrong number of arguments: expected="
            ++ toString lam.parameterCount ++ " got=" ++ toString argN)
        else if MaxFrames ≤ rest.length + 1 then .crash
        else .next ⟨C, S, sp - argN + lam.localsCount, G,
            ⟨lam, free, -1, sp - argN⟩ :: ⟨lam0, fr, ip0 + 1 + 1, bp⟩ :: rest⟩ := by
    unfold vmStep
    dsimp only
    rw [if_pos hloop, hop]
    norm_num
    rw [show ip0 + 1 + 1 = ip0 + 2 from by ring, harg]
    dsimp only
    rw [if_neg (not_lt.mpr hsp)]
    rw [hcallee]
    dsimp only
    rfl
  refine ⟨?_, ?_, ?_, by rfl⟩
  · constructor
    · rintro ⟨m, hm⟩
      by_contra hpc
      rw [hmain, if_neg (not_ne_iff.mpr hpc), if_neg (not_le.mpr hframes)] at hm
      exact StepOut.noConfusion hm
    · intro hpc
      exact ⟨_, by rw [hmain, if_pos hpc]⟩
  · intro hpc
    rw [hmain, if_pos hpc]
  · intro hpc
    rw [hmain, if_neg (by simpa using hpc), if_neg (not_le.mpr hframes)]

/-- A one-slot stack holding a parameterless closure, for instantiating
the OpCall characterization. -/
def c3WitS : Nat → Option Object :=
  fun i => if i = 0 then some (.closure ⟨[], 0, 0⟩ []) else none

theorem claim_C3_witness :
    vmStep ⟨[], c3WitS, 1, fun _ => none, [⟨⟨[9, 0], 0, 0⟩, [], -1, 0⟩]⟩
      = .next ⟨[], c3WitS, 1 - 0 + 0, fun _ => none,
          ⟨⟨[], 0, 0⟩, [], -1, 1 - 0⟩ :: ⟨⟨[9, 0], 0, 0⟩, [], -1 + 1 + 1, 0⟩ :: []⟩ :=
  (claim_C3_opcall_closure_arity [] c3WitS 1 (fun _ => none) ⟨[9, 0], 0, 0⟩ []
      (-1) 0 [] 0 ⟨[], 0, 0⟩ [] (by decide) (by decide) (by decide) rfl
      (by decide)).2.2.1 rfl

/-- A one-slot stack holding the interned False, for instantiating the
OpJumpWhenFalse characterization. -/
def c4WitS : Nat → Option Object :=
  fun i => if i = 0 then some (.boolean false) else none

theorem claim_C4_witness :
    (goNot [Object.null] = some (.boolean true)
        ↔ (Object.null = .boolean false ∨ Object.null = .null))
    ∧ vmStep ⟨[], c4WitS, 1, fun _ => none, [⟨⟨[4, 0, 9], 0, 0⟩, [], -1, 0⟩]⟩
        = .next ⟨[], c4WitS, 1 - 1, fun _ => none,
            [⟨⟨[4, 0, 9], 0, 0⟩, [],
              if isTruthy (.boolean false) then -1 + 3 else (256 * 0 + 9 : Int) - 1,
              0⟩]⟩ :=
  ⟨claim_C4_truthiness.2.1 Object.null rfl,
   claim_C4_truthiness.2.2 [] c4WitS 1 (fun _ => none) ⟨[4, 0, 9], 0, 0⟩ [] (-1) 0 []
     0 9 (.boolean false) (by decide) (by decide) (by decide) (by decide) rfl⟩
